import Mathlib

/-!
Verification of the diarization post-processing pipeline (diatribe).

This file gives a shallow embedding of the pipeline's core data model and
operations, translated from the Rust sources:

* `src/models/token.rs`        — `Token`, `Turn`, `TokenizedTranscript`
* `src/models/window.rs`       — `Window`, `WindowConfig`, `ProblemZoneConfig`
* `src/models/patch.rs`        — `WindowPatch`, `TokenRelabel`, `PatchValidation`
* `src/models/deepgram.rs`     — `DeepgramWord`
* `src/io/input.rs`            — `tokenize_deepgram_response`
* `src/heuristics/micro_turns.rs`    — `collapse_micro_turns`, `rebuild_turns`
* `src/heuristics/backchannels.rs`   — `apply_backchannel_rules`
* `src/heuristics/floor_holding.rs`  — `apply_floor_holding`
* `src/stages/stage0_normalize.rs`   — jitter detection, window generation
* `src/stages/stage2_reconcile.rs`   — weighted voting, constraints
* `src/llm/validation.rs`            — `validate_patch`

Machine integers (`u64`, `u32`, `usize`) are modelled by `Nat` (the program
never exercises wraparound; `saturating_sub` is `Nat` subtraction).  `f64`
values that the pipeline only adds, multiplies, divides and compares
(confidences, weights, costs) are modelled by `ℚ`.  The one transcendental,
`f64::exp` in the floor-holding decay, is abstracted as an explicit function
parameter `E : ℚ → ℚ`; concrete theorems instantiate it on inputs where every
call has argument `0` (where IEEE `exp` returns exactly `1`).  Rust `HashMap`
iteration order is unspecified; where the code's result can depend on it
(tie-breaking in `max_by`) the embedding makes the dependence explicit by
operating on association lists and quantifying over permutations.
-/

namespace Diatribe

/-- `Token` from `src/models/token.rs`. -/
structure Token where
  token_id : String
  word : String
  start_ms : Nat
  end_ms : Nat
  speaker : Nat
  speaker_conf : ℚ
  transcription_conf : ℚ
  is_overlap_region : Bool
  segment_id : String
  turn_id : String
  original_index : Nat
deriving DecidableEq, Repr

/-- `Token::duration_ms`: `end_ms.saturating_sub(start_ms)` (`Nat` subtraction
is saturating). -/
def Token.duration_ms (t : Token) : Nat :=
  t.end_ms - t.start_ms

/-- `Turn` from `src/models/token.rs`. -/
structure Turn where
  turn_id : String
  speaker : Nat
  start_ms : Nat
  end_ms : Nat
  token_indices : List Nat
deriving DecidableEq, Repr

/-- `Turn::duration_ms`. -/
def Turn.duration_ms (t : Turn) : Nat :=
  t.end_ms - t.start_ms

/-- `Turn::token_count`. -/
def Turn.token_count (t : Turn) : Nat :=
  t.token_indices.length

/-- `TokenizedTranscript` from `src/models/token.rs`. -/
structure TokenizedTranscript where
  tokens : List Token
  turns : List Turn
  speakers : List Nat
deriving DecidableEq, Repr

/-- `TokenizedTranscript::get_token`: first token with the given id. -/
def TokenizedTranscript.get_token (tr : TokenizedTranscript) (tid : String) :
    Option Token :=
  tr.tokens.find? (fun t => t.token_id = tid)

/-- `TokenizedTranscript::duration_ms`: last token's `end_ms` minus first
token's `start_ms`, saturating, `0` defaults for the empty list. -/
def TokenizedTranscript.duration_ms (tr : TokenizedTranscript) : Nat :=
  ((tr.tokens.getLast?.map Token.end_ms).getD 0) -
    ((tr.tokens.head?.map Token.start_ms).getD 0)

/-- `DeepgramWord` from `src/models/deepgram.rs` (times in seconds). -/
structure DeepgramWord where
  word : String
  start : ℚ
  finish : ℚ
  confidence : ℚ
  speaker : Nat
  speaker_confidence : Option ℚ
  punctuated_word : Option String
deriving DecidableEq, Repr

/-- `(x * 1000.0) as u64`: multiply seconds by 1000, truncate toward zero and
clamp negatives to zero. -/
def msOfSeconds (x : ℚ) : Nat :=
  (⌊x * 1000⌋).toNat

/-- `Token::from_deepgram`.  The `uuid::Uuid::new_v4` call is an external
source of fresh identifiers; it is passed in as the already-generated string
`uuid`. -/
def Token.from_deepgram (uuid : String) (w : DeepgramWord) (index : Nat)
    (seg : String) (tid : String) : Token :=
  { token_id := uuid
    word := w.word
    start_ms := msOfSeconds w.start
    end_ms := msOfSeconds w.finish
    speaker := w.speaker
    speaker_conf := w.speaker_confidence.getD (1/2)
    transcription_conf := w.confidence
    is_overlap_region := false
    segment_id := seg
    turn_id := tid
    original_index := index }

/-- Insert into a sorted `Nat` list, keeping it sorted (used to model the
`HashSet` of speakers that `tokenize_deepgram_response` collects and sorts). -/
def insertSortedNat (x : Nat) : List Nat → List Nat
  | [] => [x]
  | a :: t => if x ≤ a then x :: a :: t else a :: insertSortedNat x t

/-- Loop state of `tokenize_deepgram_response`. -/
structure IngestState where
  tokens : List Token
  turns : List Turn
  speakers : List Nat
  current_turn_id : Nat
  current_speaker : Option Nat
  current_turn_start_index : Nat
  current_turn_start_ms : Nat
deriving Repr

/-- One iteration of the `for (index, word) in words` loop of
`tokenize_deepgram_response` (`src/io/input.rs`). -/
def ingestStep (uuid : Nat → String) (st : IngestState)
    (iw : Nat × DeepgramWord) : IngestState :=
  let (index, w) := iw
  let speaker_changed : Bool :=
    match st.current_speaker with
    | some s => decide (s ≠ w.speaker)
    | none => false
  let st :=
    if speaker_changed then
      let st' : IngestState :=
        match st.current_speaker, st.tokens.getLast? with
        | some speaker, some last_token =>
          { st with
            turns := st.turns ++
              [{ turn_id := "turn_" ++ toString st.current_turn_id
                 speaker := speaker
                 start_ms := st.current_turn_start_ms
                 end_ms := last_token.end_ms
                 token_indices :=
                   List.range' st.current_turn_start_index
                     (st.tokens.length - st.current_turn_start_index) }]
            current_turn_id := st.current_turn_id + 1 }
        | _, _ => st
      { st' with
        current_turn_start_index := st'.tokens.length
        current_turn_start_ms := msOfSeconds w.start }
    else st
  let st :=
    if st.current_speaker.isNone then
      { st with current_turn_start_ms := msOfSeconds w.start }
    else st
  let st := { st with
    current_speaker := some w.speaker
    speakers :=
      if w.speaker ∈ st.speakers then st.speakers
      else insertSortedNat w.speaker st.speakers }
  let tid := "turn_" ++ toString st.current_turn_id
  { st with
    tokens := st.tokens ++ [Token.from_deepgram (uuid index) w index "seg_0" tid] }

/-- The state after the main word loop of `tokenize_deepgram_response`. -/
def ingestFoldState (uuid : Nat → String) (words : List DeepgramWord) :
    IngestState :=
  (words.enum).foldl (ingestStep uuid)
    { tokens := [], turns := [], speakers := [], current_turn_id := 0
      current_speaker := none, current_turn_start_index := 0
      current_turn_start_ms := 0 }

/-- The transcript `tokenize_deepgram_response` builds for a non-empty word
list: the loop state's tokens plus the closed final turn. -/
def ingestResult (uuid : Nat → String) (words : List DeepgramWord) :
    TokenizedTranscript :=
  let st := ingestFoldState uuid words
  let turns :=
    match st.current_speaker, st.tokens.getLast? with
    | some speaker, some last_token =>
      st.turns ++
        [{ turn_id := "turn_" ++ toString st.current_turn_id
           speaker := speaker
           start_ms := st.current_turn_start_ms
           end_ms := last_token.end_ms
           token_indices :=
             List.range' st.current_turn_start_index
               (st.tokens.length - st.current_turn_start_index) }]
    | _, _ => st.turns
  { tokens := st.tokens, turns := turns, speakers := st.speakers }

/-- `tokenize_deepgram_response` (`src/io/input.rs`).  The word list is the
first channel's first alternative; the function never returns `Err`. -/
def tokenize_deepgram_response (uuid : Nat → String)
    (words : List DeepgramWord) : Except String TokenizedTranscript :=
  if words.isEmpty then
    .ok { tokens := [], turns := [], speakers := [] }
  else
    .ok (ingestResult uuid words)

/-- The word/timing view of a token: the data C10 says survives ingest. -/
def timingView (t : Token) : String × Nat × Nat :=
  (t.word, t.start_ms, t.end_ms)

theorem ingestStep_tokens_map (uuid : Nat → String) (st : IngestState)
    (iw : Nat × DeepgramWord) :
    ((ingestStep uuid st iw).tokens).map timingView =
      st.tokens.map timingView ++
        [(iw.2.word, msOfSeconds iw.2.start, msOfSeconds iw.2.finish)] := by
  obtain ⟨i, w⟩ := iw
  rcases hcs : st.current_speaker with _ | s
  · rcases hlast : st.tokens.getLast? with _ | lt <;>
      simp [ingestStep, hcs, hlast, Token.from_deepgram, timingView]
  · by_cases hsw : s = w.speaker
    · simp [ingestStep, hcs, hsw, Token.from_deepgram, timingView]
    · rcases hlast : st.tokens.getLast? with _ | lt <;>
      simp [ingestStep, hcs, hlast, hsw, Token.from_deepgram, timingView]

theorem ingestFold_tokens_map (uuid : Nat → String) (l : List (Nat × DeepgramWord))
    (st : IngestState) :
    ((l.foldl (ingestStep uuid) st).tokens).map timingView =
      st.tokens.map timingView ++
        l.map (fun p => (p.2.word, msOfSeconds p.2.start, msOfSeconds p.2.finish)) := by
  induction l generalizing st with
  | nil => simp
  | cons a t ih =>
    simp only [List.foldl_cons, ih, ingestStep_tokens_map, List.map_cons,
      List.append_assoc, List.singleton_append]

/-- **C10.** `duration_ms` is total on both tokens and turns: it is
`end_ms − start_ms` when `end_ms ≥ start_ms` and saturates to `0` when
`end_ms < start_ms`; and ingest (`tokenize_deepgram_response`) performs no
validation of `end ≥ start` — it always returns `Ok`, reproducing every
word's timing data verbatim, so a malformed word with `end < start` flows
through as a zero-duration token rather than causing a failure. -/
theorem duration_total_and_ingest_unvalidated :
    (∀ t : Token,
        (t.start_ms ≤ t.end_ms → t.duration_ms = t.end_ms - t.start_ms) ∧
        (t.end_ms < t.start_ms → t.duration_ms = 0)) ∧
    (∀ tu : Turn,
        (tu.start_ms ≤ tu.end_ms → tu.duration_ms = tu.end_ms - tu.start_ms) ∧
        (tu.end_ms < tu.start_ms → tu.duration_ms = 0)) ∧
    (∀ (uuid : Nat → String) (words : List DeepgramWord),
      ∃ tr, tokenize_deepgram_response uuid words = .ok tr ∧
        tr.tokens.map timingView =
          words.map (fun w => (w.word, msOfSeconds w.start, msOfSeconds w.finish)) ∧
        ∀ t ∈ tr.tokens, t.end_ms < t.start_ms → t.duration_ms = 0) := by
  refine ⟨?_, ?_, ?_⟩
  · intro t
    exact ⟨fun _ => rfl, fun h => Nat.sub_eq_zero_of_le h.le⟩
  · intro tu
    exact ⟨fun _ => rfl, fun h => Nat.sub_eq_zero_of_le h.le⟩
  · intro uuid words
    by_cases hw : words.isEmpty
    · refine ⟨{ tokens := [], turns := [], speakers := [] }, ?_, ?_, ?_⟩
      · simp [tokenize_deepgram_response, hw]
      · rw [List.isEmpty_iff] at hw
        simp [hw]
      · simp
    · refine ⟨ingestResult uuid words, ?_, ?_, ?_⟩
      · simp [tokenize_deepgram_response, hw]
      · have h := ingestFold_tokens_map uuid words.enum
          { tokens := [], turns := [], speakers := [], current_turn_id := 0
            current_speaker := none, current_turn_start_index := 0
            current_turn_start_ms := 0 }
        simp only [List.map_nil, List.nil_append] at h
        show ((ingestFoldState uuid words).tokens).map timingView = _
        rw [ingestFoldState, h,
          show (fun p : Nat × DeepgramWord =>
              (p.2.word, msOfSeconds p.2.start, msOfSeconds p.2.finish)) =
            ((fun w => (w.word, msOfSeconds w.start, msOfSeconds w.finish)) ∘
              Prod.snd) from rfl,
          ← List.map_map, List.enum_map_snd]
      · intro t _ h
        exact Nat.sub_eq_zero_of_le h.le

/-- Witness for C10: a one-word input whose `end` (0.2 s) precedes its
`start` (0.5 s) ingests successfully into a zero-duration token. -/
theorem duration_total_and_ingest_unvalidated_witness :
    ∃ tr, tokenize_deepgram_response (fun n => toString n)
        [{ word := "oops", start := 1/2, finish := 1/5, confidence := 9/10,
           speaker := 0, speaker_confidence := none, punctuated_word := none }] =
        .ok tr ∧
      tr.tokens.map timingView = [("oops", 500, 200)] ∧
      ∀ t ∈ tr.tokens, t.end_ms < t.start_ms → t.duration_ms = 0 := by
  have h := duration_total_and_ingest_unvalidated.2.2 (fun n => toString n)
    [{ word := "oops", start := 1/2, finish := 1/5, confidence := 9/10,
       speaker := 0, speaker_confidence := none, punctuated_word := none }]
  obtain ⟨tr, h1, h2, h3⟩ := h
  refine ⟨tr, h1, ?_, h3⟩
  rw [h2]
  norm_num [msOfSeconds]
  constructor <;> rfl

/-! ## Turn rebuilding (`rebuild_turns`, `src/heuristics/micro_turns.rs`)

The Rust loop walks the tokens left to right and cuts a new turn at every
speaker change; equivalently it splits the (indexed) token list into maximal
runs of equal speaker.  `chunksBy f` computes those maximal runs. -/

def chunksAux (f : α → Nat) : α → List α → List α × List (List α)
  | a, [] => ([a], [])
  | a, b :: t =>
    let r := chunksAux f b t
    if f a = f b then (a :: r.1, r.2) else ([a], r.1 :: r.2)

def chunksBy (f : α → Nat) : List α → List (List α)
  | [] => []
  | a :: t => (chunksAux f a t).1 :: (chunksAux f a t).2

theorem chunksAux_fst_cons (f : α → Nat) (a : α) (t : List α) :
    ∃ u, (chunksAux f a t).1 = a :: u := by
  cases t with
  | nil => exact ⟨[], rfl⟩
  | cons b t =>
    simp only [chunksAux]
    split <;> exact ⟨_, rfl⟩

theorem chunksAux_flatten (f : α → Nat) (a : α) (t : List α) :
    (chunksAux f a t).1 ++ (chunksAux f a t).2.flatten = a :: t := by
  induction t generalizing a with
  | nil => rfl
  | cons b t ih =>
    simp only [chunksAux]
    split <;> simp [ih b]

theorem chunksBy_flatten (f : α → Nat) (l : List α) :
    (chunksBy f l).flatten = l := by
  cases l with
  | nil => rfl
  | cons a t => simpa [chunksBy] using chunksAux_flatten f a t

theorem chunksAux_const (f : α → Nat) (a : α) (t : List α) :
    (∀ x ∈ (chunksAux f a t).1, f x = f a) ∧
    (∀ c ∈ (chunksAux f a t).2, ∃ b u, c = b :: u ∧ ∀ x ∈ c, f x = f b) := by
  induction t generalizing a with
  | nil => simp [chunksAux]
  | cons b t ih =>
    obtain ⟨ih1, ih2⟩ := ih b
    simp only [chunksAux]
    by_cases hab : f a = f b
    · simp only [if_pos hab]
      refine ⟨?_, ih2⟩
      intro x hx
      rcases List.mem_cons.mp hx with hx | hx
      · rw [hx]
      · rw [ih1 x hx, hab]
    · simp only [if_neg hab]
      refine ⟨by simp, ?_⟩
      intro c hc
      rcases List.mem_cons.mp hc with hc | hc
      · obtain ⟨u, hu⟩ := chunksAux_fst_cons f b t
        refine ⟨b, u, by rw [hc, hu], ?_⟩
        rw [hc]
        exact ih1
      · exact ih2 c hc

theorem chunksBy_const (f : α → Nat) (l : List α) :
    ∀ c ∈ chunksBy f l, ∃ b u, c = b :: u ∧ ∀ x ∈ c, f x = f b := by
  cases l with
  | nil => simp [chunksBy]
  | cons a t =>
    intro c hc
    rcases List.mem_cons.mp hc with hc | hc
    · obtain ⟨u, hu⟩ := chunksAux_fst_cons f a t
      refine ⟨a, u, by rw [hc, hu], ?_⟩
      rw [hc]
      exact (chunksAux_const f a t).1
    · exact (chunksAux_const f a t).2 c hc

theorem chunksAux_chain (f : α → Nat) (a : α) (t : List α) :
    List.Chain' (fun c d => ∀ x ∈ c, ∀ y ∈ d, f x ≠ f y)
      ((chunksAux f a t).1 :: (chunksAux f a t).2) := by
  induction t generalizing a with
  | nil => simp [chunksAux]
  | cons b t ih =>
    have ihb := ih b
    simp only [chunksAux]
    by_cases hab : f a = f b
    · simp only [if_pos hab]
      rcases h2 : (chunksAux f b t).2 with _ | ⟨c2, cs⟩
      · simp
      · rw [h2] at ihb
        have hR : ∀ x ∈ (chunksAux f b t).1, ∀ y ∈ c2, f x ≠ f y :=
          (List.chain'_cons.mp ihb).1
        refine List.chain'_cons.mpr ⟨?_, (List.chain'_cons.mp ihb).2⟩
        intro x hx y hy
        obtain ⟨u, hu⟩ := chunksAux_fst_cons f b t
        have hbmem : b ∈ (chunksAux f b t).1 := by rw [hu]; exact List.mem_cons_self b u
        rcases List.mem_cons.mp hx with hx | hx
        · rw [hx, hab]
          exact hR b hbmem y hy
        · exact hR x hx y hy
    · simp only [if_neg hab]
      refine List.chain'_cons.mpr ⟨?_, ihb⟩
      intro x hx y hy
      rcases List.mem_cons.mp hx with hx | hx
      · rw [hx, (chunksAux_const f b t).1 y hy]
        exact hab
      · simp at hx

theorem chunksBy_chain (f : α → Nat) (l : List α) :
    List.Chain' (fun c d => ∀ x ∈ c, ∀ y ∈ d, f x ≠ f y) (chunksBy f l) := by
  cases l with
  | nil => simp [chunksBy]
  | cons a t => exact chunksAux_chain f a t

/-- Head-based projections for a run (runs are always non-empty; the default
values are never read). -/
def runSpeaker (c : List (Nat × Token)) : Nat :=
  ((c.head?.map (fun p => p.2.speaker)).getD 0)

def runStartMs (c : List (Nat × Token)) : Nat :=
  ((c.head?.map (fun p => p.2.start_ms)).getD 0)

def runEndMs (c : List (Nat × Token)) : Nat :=
  ((c.getLast?.map (fun p => p.2.end_ms)).getD 0)

/-- The per-pair speaker key the turn rebuild cuts on. -/
def speakerKey (p : Nat × Token) : Nat :=
  p.2.speaker

/-- The maximal equal-speaker runs of a transcript's indexed token list. -/
def tokenRuns (tr : TokenizedTranscript) : List (List (Nat × Token)) :=
  chunksBy speakerKey tr.tokens.enum

/-- Turn built from the `k`-th run (first pass of `rebuild_turns`). -/
def mkRunTurn (kc : Nat × List (Nat × Token)) : Turn :=
  { turn_id := "turn_" ++ toString kc.1
    speaker := runSpeaker kc.2
    start_ms := runStartMs kc.2
    end_ms := runEndMs kc.2
    token_indices := kc.2.map Prod.fst }

/-- The `k`-th run with the new turn id written back into each token (second
pass of `rebuild_turns`). -/
def runPairs (kc : Nat × List (Nat × Token)) : List (Nat × Token) :=
  kc.2.map fun p => (p.1, { p.2 with turn_id := "turn_" ++ toString kc.1 })

/-- `rebuild_turns` (`src/heuristics/micro_turns.rs`): split the indexed token
list into maximal equal-speaker runs; run `k` becomes turn `"turn_k"` whose
`token_indices` are the run's indices, `start_ms`/`end_ms` the run's first
token's start / last token's end; the second pass writes each turn's id back
into its tokens.  (For an empty token list the turn list is cleared; the
uniform run-based form below agrees with that special case because there are
no runs.) -/
def rebuild_turns (tr : TokenizedTranscript) : TokenizedTranscript :=
  { tokens := (((tokenRuns tr).enum.map runPairs).flatten).map Prod.snd
    turns := (tokenRuns tr).enum.map mkRunTurn
    speakers := tr.speakers }

theorem enum_map_comp (l : List α) (F : α → β) :
    l.enum.map (fun kc => F kc.2) = l.map F := by
  rw [show (fun kc : Nat × α => F kc.2) = F ∘ Prod.snd from rfl, ← List.map_map,
    List.enum_map_snd]

theorem tokenRuns_flatten (tr : TokenizedTranscript) :
    (tokenRuns tr).flatten = tr.tokens.enum :=
  chunksBy_flatten speakerKey tr.tokens.enum

theorem rebuild_turns_indices_flatten (tr : TokenizedTranscript) :
    (((rebuild_turns tr).turns).map Turn.token_indices).flatten =
      List.range tr.tokens.length := by
  show ((((tokenRuns tr).enum.map mkRunTurn).map Turn.token_indices).flatten) = _
  rw [List.map_map]
  rw [show Turn.token_indices ∘ mkRunTurn =
    (fun kc : Nat × List (Nat × Token) => kc.2.map Prod.fst) from rfl]
  rw [enum_map_comp (tokenRuns tr) (fun c => c.map Prod.fst)]
  rw [← List.map_flatten, tokenRuns_flatten, List.enum_map_fst]

theorem rebuild_turns_pairs_map_fst (tr : TokenizedTranscript) :
    ((((tokenRuns tr).enum.map runPairs).flatten).map Prod.fst) =
      List.range tr.tokens.length := by
  rw [List.map_flatten]
  have h1 : ((tokenRuns tr).enum.map runPairs).map (List.map Prod.fst) =
      (tokenRuns tr).enum.map (fun kc => kc.2.map Prod.fst) := by
    rw [List.map_map]
    refine List.map_congr_left ?_
    intro kc _
    simp [runPairs, List.map_map, Function.comp]
  rw [h1, enum_map_comp (tokenRuns tr) (fun c => c.map Prod.fst),
    ← List.map_flatten, tokenRuns_flatten, List.enum_map_fst]

theorem rebuild_turns_tokens_length (tr : TokenizedTranscript) :
    (rebuild_turns tr).tokens.length = tr.tokens.length := by
  show ((((tokenRuns tr).enum.map runPairs).flatten).map Prod.snd).length = _
  have h := congrArg List.length (rebuild_turns_pairs_map_fst tr)
  rw [List.length_map, List.length_range] at h
  rw [List.length_map, h]

/-- In a pair list whose first components read `0, 1, …, n−1` in order, the
pair with first component `i` sits at position `i`. -/
theorem getElem?_of_map_fst_range (L : List (Nat × Token))
    (h : L.map Prod.fst = List.range L.length) :
    ∀ p ∈ L, L[p.1]? = some p := by
  intro p hp
  obtain ⟨j, hj, hget⟩ := List.getElem_of_mem hp
  have h1 : (L.map Prod.fst)[j]? = some p.1 := by
    rw [List.getElem?_map, List.getElem?_eq_getElem hj, hget]
    rfl
  rw [h] at h1
  have h2 : (List.range L.length)[j]? = some j :=
    List.getElem?_range (by simpa using hj)
  rw [h1] at h2
  have : p.1 = j := by injection h2
  rw [this, List.getElem?_eq_getElem hj, hget]

theorem mem_of_mem_enum {l : List α} {kc : Nat × α} (h : kc ∈ l.enum) :
    kc.2 ∈ l := by
  have h2 := List.mem_map_of_mem Prod.snd h
  rwa [List.enum_map_snd] at h2

theorem rebuild_turns_flatten_len (tr : TokenizedTranscript) :
    (((tokenRuns tr).enum.map runPairs).flatten).length = tr.tokens.length := by
  have h := congrArg List.length (rebuild_turns_pairs_map_fst tr)
  rwa [List.length_map, List.length_range] at h

theorem rebuild_turns_coherent (tr : TokenizedTranscript) :
    ∀ tu ∈ (rebuild_turns tr).turns, ∀ i ∈ tu.token_indices, ∀ t,
      (rebuild_turns tr).tokens[i]? = some t →
        t.speaker = tu.speaker ∧ t.turn_id = tu.turn_id := by
  intro tu htu i hi t hget
  obtain ⟨kc, hkc, rfl⟩ := List.mem_map.mp htu
  obtain ⟨p, hp, hpi⟩ := List.mem_map.mp hi
  have hqrun : (p.1, { p.2 with turn_id := "turn_" ++ toString kc.1 }) ∈
      runPairs kc := List.mem_map_of_mem _ hp
  have hrp : runPairs kc ∈ (tokenRuns tr).enum.map runPairs :=
    List.mem_map_of_mem _ hkc
  have hqflat : (p.1, { p.2 with turn_id := "turn_" ++ toString kc.1 }) ∈
      ((tokenRuns tr).enum.map runPairs).flatten :=
    List.mem_flatten.mpr ⟨_, hrp, hqrun⟩
  have hfst : (((tokenRuns tr).enum.map runPairs).flatten).map Prod.fst =
      List.range ((((tokenRuns tr).enum.map runPairs).flatten)).length := by
    rw [rebuild_turns_flatten_len, rebuild_turns_pairs_map_fst]
  have hQ := getElem?_of_map_fst_range _ hfst _ hqflat
  have hget2 : (rebuild_turns tr).tokens[i]? =
      some { p.2 with turn_id := "turn_" ++ toString kc.1 } := by
    show ((((tokenRuns tr).enum.map runPairs).flatten).map Prod.snd)[i]? = _
    rw [List.getElem?_map, ← hpi, hQ]
    rfl
  rw [hget2] at hget
  have ht : t = { p.2 with turn_id := "turn_" ++ toString kc.1 } := by
    injection hget with h
    exact h.symm
  obtain ⟨b, u, hbu, hconst⟩ :=
    chunksBy_const speakerKey tr.tokens.enum kc.2 (mem_of_mem_enum hkc)
  constructor
  · show t.speaker = runSpeaker kc.2
    rw [ht]
    show p.2.speaker = runSpeaker kc.2
    have hpb : speakerKey p = speakerKey b := hconst p hp
    rw [runSpeaker, hbu]
    simpa [speakerKey] using hpb
  · rw [ht]
    rfl

theorem chain'_imp_mem {R S : α → α → Prop} :
    ∀ {l : List α}, (∀ a ∈ l, ∀ b ∈ l, R a b → S a b) →
      List.Chain' R l → List.Chain' S l
  | [], _, _ => List.chain'_nil
  | [_], _, _ => List.chain'_singleton _
  | a :: b :: t, hmem, hch => by
    rw [List.chain'_cons] at hch ⊢
    refine ⟨hmem a (by simp) b (by simp) hch.1, ?_⟩
    exact chain'_imp_mem
      (fun x hx y hy => hmem x (List.mem_cons_of_mem a hx)
        y (List.mem_cons_of_mem a hy)) hch.2

theorem rebuild_turns_chain (tr : TokenizedTranscript) :
    List.Chain' (fun a b => a.speaker ≠ b.speaker) (rebuild_turns tr).turns := by
  have h := chunksBy_chain speakerKey tr.tokens.enum
  have h2 : List.Chain' (fun c d => runSpeaker c ≠ runSpeaker d)
      (tokenRuns tr) := by
    refine chain'_imp_mem ?_ h
    intro c hc d hd hcd
    obtain ⟨bc, uc, hbc, _⟩ := chunksBy_const speakerKey tr.tokens.enum c hc
    obtain ⟨bd, ud, hbd, _⟩ := chunksBy_const speakerKey tr.tokens.enum d hd
    have : speakerKey bc ≠ speakerKey bd :=
      hcd bc (hbc ▸ List.mem_cons_self bc uc) bd (hbd ▸ List.mem_cons_self bd ud)
    rw [runSpeaker, runSpeaker, hbc, hbd]
    simpa [speakerKey] using this
  have h3 : List.Chain' (fun kc kd : Nat × List (Nat × Token) =>
      runSpeaker kc.2 ≠ runSpeaker kd.2) (tokenRuns tr).enum := by
    have h4 : List.Chain' (fun c d => runSpeaker c ≠ runSpeaker d)
        ((tokenRuns tr).enum.map Prod.snd) := by
      rwa [List.enum_map_snd]
    exact (List.chain'_map Prod.snd).mp h4
  show List.Chain' _ ((tokenRuns tr).enum.map mkRunTurn)
  exact (List.chain'_map mkRunTurn).mpr h3

/-- **C1.** After every turn rebuild: the turns' `token_indices` concatenate
(in order, hence contiguous, disjoint, gap-free) to exactly `0 … n−1`; every
token of a turn has that turn's `speaker` and carries that turn's `turn_id`
as its back-reference; adjacent turns have different speakers; and an empty
token list yields an empty turn list. -/
theorem rebuild_turns_invariants (tr : TokenizedTranscript) :
    ((((rebuild_turns tr).turns).map Turn.token_indices).flatten =
        List.range ((rebuild_turns tr).tokens.length)) ∧
    (∀ tu ∈ (rebuild_turns tr).turns, ∀ i ∈ tu.token_indices, ∀ t,
      (rebuild_turns tr).tokens[i]? = some t →
        t.speaker = tu.speaker ∧ t.turn_id = tu.turn_id) ∧
    List.Chain' (fun a b => a.speaker ≠ b.speaker) (rebuild_turns tr).turns ∧
    (tr.tokens = [] → (rebuild_turns tr).turns = []) := by
  refine ⟨?_, rebuild_turns_coherent tr, rebuild_turns_chain tr, ?_⟩
  · rw [rebuild_turns_tokens_length]
    exact rebuild_turns_indices_flatten tr
  · intro h
    simp [rebuild_turns, tokenRuns, h, chunksBy]

/-- A concrete token for witnesses and counterexamples. -/
def mkTok (tid : String) (idx : Nat) (w : String) (s e spk : Nat) (conf : ℚ) :
    Token :=
  { token_id := tid, word := w, start_ms := s, end_ms := e, speaker := spk
    speaker_conf := conf, transcription_conf := 19/20
    is_overlap_region := false, segment_id := "seg_0", turn_id := "turn_0"
    original_index := idx }

/-- Two-token, two-speaker transcript used by the C1 witness. -/
def trC1 : TokenizedTranscript :=
  { tokens := [mkTok "a" 0 "hi" 0 500 0 (19/20), mkTok "b" 1 "yo" 600 900 1 (19/20)]
    turns := [], speakers := [0, 1] }

/-- The turn the C1 witness exhibits. -/
def tuC1 : Turn :=
  { turn_id := "turn_1", speaker := 1, start_ms := 600, end_ms := 900
    token_indices := [1] }

/-- The rebuilt token the C1 witness exhibits. -/
def tkC1 : Token :=
  { mkTok "b" 1 "yo" 600 900 1 (19/20) with turn_id := "turn_1" }

set_option maxRecDepth 100000 in
/-- Witness for C1 at a two-token transcript: turn `turn_1` holds exactly
token 1, whose rebuilt speaker and back-reference agree with the turn. -/
theorem rebuild_turns_invariants_witness :
    tuC1 ∈ (rebuild_turns trC1).turns ∧ (1 : Nat) ∈ tuC1.token_indices ∧
      (rebuild_turns trC1).tokens[1]? = some tkC1 ∧
      tkC1.speaker = tuC1.speaker ∧ tkC1.turn_id = tuC1.turn_id := by
  have hmem : tuC1 ∈ (rebuild_turns trC1).turns := by with_unfolding_all decide
  have hi : (1 : Nat) ∈ tuC1.token_indices := by with_unfolding_all decide
  have hget : (rebuild_turns trC1).tokens[1]? = some tkC1 := by
    with_unfolding_all decide
  obtain ⟨hs, ht⟩ := (rebuild_turns_invariants trC1).2.1 _ hmem 1 hi _ hget
  exact ⟨hmem, hi, hget, hs, ht⟩

/-! ## Heuristics (`src/heuristics/`) -/

/-- `HeuristicsResult` from `src/heuristics/mod.rs`. -/
structure HeuristicsResult where
  tokens_relabeled : Nat
  changed_indices : List Nat
  needs_llm : Bool
deriving DecidableEq, Repr

/-- `HeuristicsConfig` from `src/heuristics/mod.rs`. -/
structure HeuristicsConfig where
  micro_turn_max_ms : Nat
  backchannel_words : List String
  floor_decay_per_second : ℚ
  min_floor_score : ℚ
deriving Repr

/-- Default `HeuristicsConfig` (backchannel words as in the source). -/
def defaultHeuristicsConfig : HeuristicsConfig :=
  { micro_turn_max_ms := 300
    backchannel_words := ["yeah", "yes", "yep", "uh-huh", "mhm", "mm-hmm",
      "okay", "ok", "right", "sure", "hmm", "hm", "ah", "oh", "uh", "um"]
    floor_decay_per_second := 1/5
    min_floor_score := 3/10 }

/-- `transcript.tokens[i].speaker = sp`: in-place update of one token's
speaker (a no-op when `i` is out of range; the program only indexes in
range). -/
def setSpeakerAt (toks : List Token) (i sp : Nat) : List Token :=
  match toks[i]? with
  | some t => toks.set i { t with speaker := sp }
  | none => toks

theorem setSpeakerAt_getElem_ne (toks : List Token) (i sp j : Nat)
    (h : i ≠ j) : (setSpeakerAt toks i sp)[j]? = toks[j]? := by
  rw [setSpeakerAt]
  cases toks[i]? with
  | none => rfl
  | some t => exact List.getElem?_set_ne h

theorem setSpeakerAt_getElem_self (toks : List Token) (i sp : Nat) :
    ((setSpeakerAt toks i sp)[i]?).map Token.speaker =
      (toks[i]?).map (fun _ => sp) := by
  rw [setSpeakerAt]
  cases h : toks[i]? with
  | none => simp [h]
  | some t =>
    have hi : i < toks.length := by
      by_contra hc
      rw [List.getElem?_eq_none (Nat.le_of_not_lt hc)] at h
      exact Option.noConfusion h
    rw [List.getElem?_set_self hi]
    rfl

theorem map_set_of_pres (f : α → β) :
    ∀ (l : List α) (i : Nat) (a : α), (∀ x, l[i]? = some x → f a = f x) →
      (l.set i a).map f = l.map f
  | [], _, _, _ => rfl
  | b :: t, 0, a, h => by
    simp only [List.set, List.map_cons]
    rw [h b (by simp)]
  | b :: t, i + 1, a, h => by
    simp only [List.set, List.map_cons]
    rw [map_set_of_pres f t i a (fun x hx => h x (by simpa using hx))]

theorem setSpeakerAt_map (π : Token → β)
    (hπ : ∀ t sp, π { t with speaker := sp } = π t)
    (toks : List Token) (i sp : Nat) :
    (setSpeakerAt toks i sp).map π = toks.map π := by
  rw [setSpeakerAt]
  cases h : toks[i]? with
  | none => rfl
  | some t =>
    refine map_set_of_pres π toks i _ ?_
    intro x hx
    rw [h] at hx
    injection hx with hx
    rw [← hx, hπ]

/-- The per-token data that only turn rebuilds may change (`turn_id`) and the
relabelling operations may change (`speaker`) are excluded; everything else a
token carries is in this frame. -/
def projFrame (t : Token) :
    String × String × Nat × Nat × ℚ × ℚ × Bool × String × Nat :=
  (t.token_id, t.word, t.start_ms, t.end_ms, t.speaker_conf,
    t.transcription_conf, t.is_overlap_region, t.segment_id, t.original_index)

theorem rebuild_turns_tokens_map (π : Token → β)
    (hπ : ∀ t tid, π { t with turn_id := tid } = π t)
    (tr : TokenizedTranscript) :
    (rebuild_turns tr).tokens.map π = tr.tokens.map π := by
  show ((((tokenRuns tr).enum.map runPairs).flatten).map Prod.snd).map π = _
  rw [List.map_map, List.map_flatten, List.map_map]
  have h1 : (tokenRuns tr).enum.map (List.map (π ∘ Prod.snd) ∘ runPairs) =
      (tokenRuns tr).enum.map (fun kc => kc.2.map (π ∘ Prod.snd)) := by
    refine List.map_congr_left ?_
    intro kc _
    show (runPairs kc).map (π ∘ Prod.snd) = _
    rw [runPairs, List.map_map]
    refine List.map_congr_left ?_
    intro p _
    exact hπ p.2 ("turn_" ++ toString kc.1)
  rw [h1, enum_map_comp (tokenRuns tr) (fun c => c.map (π ∘ Prod.snd)),
    ← List.map_flatten, tokenRuns_flatten,
    show (π ∘ Prod.snd : Nat × Token → β) = (fun kc => π kc.2) from rfl,
    enum_map_comp]

theorem rebuild_turns_map_projFrame (tr : TokenizedTranscript) :
    (rebuild_turns tr).tokens.map projFrame = tr.tokens.map projFrame :=
  rebuild_turns_tokens_map projFrame (fun _ _ => rfl) tr

theorem rebuild_turns_map_speaker (tr : TokenizedTranscript) :
    (rebuild_turns tr).tokens.map Token.speaker = tr.tokens.map Token.speaker :=
  rebuild_turns_tokens_map Token.speaker (fun _ _ => rfl) tr

theorem rebuild_turns_speaker_at (tr : TokenizedTranscript) (i : Nat) :
    ((rebuild_turns tr).tokens[i]?).map Token.speaker =
      (tr.tokens[i]?).map Token.speaker := by
  have h := congrArg (fun l => l[i]?) (rebuild_turns_map_speaker tr)
  simpa [List.getElem?_map] using h

/-- Fallback turn for the (never-taken) out-of-range turn lookup. -/
def defaultTurn : Turn :=
  { turn_id := "", speaker := 0, start_ms := 0, end_ms := 0, token_indices := [] }

/-- `if turn_idx > 0 { Some(turns[turn_idx-1].speaker) } else { None }`. -/
def beforeSpeaker (turns : List Turn) (k : Nat) : Option Nat :=
  if k > 0 then (turns[k - 1]?).map Turn.speaker else none

/-- `if turn_idx + 1 < turns.len() { Some(turns[turn_idx+1].speaker) } else { None }`. -/
def afterSpeaker (turns : List Turn) (k : Nat) : Option Nat :=
  (turns[k + 1]?).map Turn.speaker

/-- One iteration of the inner relabel loop of `collapse_micro_turns`:
`if tokens[i].speaker != sp { tokens[i].speaker = sp; changed.push(i) }`. -/
def relabelStep (sp : Nat) (tc : List Token × List Nat) (i : Nat) :
    List Token × List Nat :=
  match tc.1[i]? with
  | some t => if t.speaker ≠ sp then (setSpeakerAt tc.1 i sp, tc.2 ++ [i]) else tc
  | none => tc

/-- Relabel every token index of a turn to `sp`, recording changes. -/
def relabelRun (toks : List Token) (changed : List Nat) (idxs : List Nat)
    (sp : Nat) : List Token × List Nat :=
  idxs.foldl (relabelStep sp) (toks, changed)

/-- One iteration of the `for (turn_idx, _) in micro_turns` loop of
`collapse_micro_turns` (`src/heuristics/micro_turns.rs`).  The turn list is
the one computed before the loop; only tokens are mutated. -/
def microStep (turns : List Turn) (st : List Token × List Nat × Bool)
    (k : Nat) : List Token × List Nat × Bool :=
  match beforeSpeaker turns k, afterSpeaker turns k with
  | some b, some a =>
    if b = a then
      ((relabelRun st.1 st.2.1
          ((turns[k]?).getD defaultTurn).token_indices b).1,
       (relabelRun st.1 st.2.1
          ((turns[k]?).getD defaultTurn).token_indices b).2,
       st.2.2)
    else (st.1, st.2.1, true)
  | _, _ => st

/-- The micro-turn candidates: indices of turns with
`duration_ms < max_duration_ms`, in order. -/
def microTurnIdxs (turns : List Turn) (maxd : Nat) : List Nat :=
  (turns.enum.filter (fun p => p.2.duration_ms < maxd)).map Prod.fst

/-- `collapse_micro_turns` (`src/heuristics/micro_turns.rs`). -/
def collapse_micro_turns (tr : TokenizedTranscript) (maxd : Nat) :
    TokenizedTranscript × HeuristicsResult :=
  let st := (microTurnIdxs tr.turns maxd).foldl (microStep tr.turns)
    (tr.tokens, [], false)
  let tr' : TokenizedTranscript := { tr with tokens := st.1 }
  let tr'' := if st.2.1 ≠ [] then rebuild_turns tr' else tr'
  (tr'', { tokens_relabeled := st.2.1.length, changed_indices := st.2.1
           needs_llm := st.2.2 })

theorem relabelStep_getElem_ne (sp : Nat) (tc : List Token × List Nat)
    (i j : Nat) (h : j ≠ i) :
    (relabelStep sp tc i).1[j]? = tc.1[j]? := by
  rw [relabelStep]
  cases tc.1[i]? with
  | none => rfl
  | some t =>
    by_cases hs : t.speaker ≠ sp
    · simp only [if_pos hs]
      exact setSpeakerAt_getElem_ne _ _ _ _ (Ne.symm h)
    · simp only [if_neg hs]

theorem relabelRun_getElem_ne (idxs : List Nat) (sp : Nat)
    (toks : List Token) (changed : List Nat) (j : Nat) (h : j ∉ idxs) :
    (relabelRun toks changed idxs sp).1[j]? = toks[j]? := by
  induction idxs generalizing toks changed with
  | nil => rfl
  | cons i rest ih =>
    rw [relabelRun, List.foldl_cons]
    have hji : j ≠ i := fun he => h (he ▸ List.mem_cons_self i rest)
    have hjr : j ∉ rest := fun hm => h (List.mem_cons_of_mem i hm)
    cases hstep : relabelStep sp (toks, changed) i with
    | mk toks1 ch1 =>
      have h1 : toks1[j]? = toks[j]? := by
        have := relabelStep_getElem_ne sp (toks, changed) i j hji
        rwa [hstep] at this
      rw [show List.foldl (relabelStep sp) (toks1, ch1) rest =
        relabelRun toks1 ch1 rest sp from rfl]
      rw [ih toks1 ch1 hjr, h1]

theorem relabelStep_getElem_self (sp : Nat) (tc : List Token × List Nat)
    (i : Nat) :
    ((relabelStep sp tc i).1[i]?).map Token.speaker =
      (tc.1[i]?).map (fun _ => sp) := by
  rw [relabelStep]
  cases h : tc.1[i]? with
  | none => simp [h]
  | some t =>
    by_cases hs : t.speaker ≠ sp
    · simp only [if_pos hs]
      rw [setSpeakerAt_getElem_self, h]
    · simp only [if_neg hs]
      rw [not_not] at hs
      simp [h, hs]

theorem optmap_const_of_map (o1 o2 : Option Token) (sp : Nat)
    (h : o1.map Token.speaker = o2.map (fun _ => sp)) :
    o1.map (fun _ => sp) = o2.map (fun _ => sp) := by
  cases o1 <;> cases o2 <;> simp_all

theorem relabelRun_getElem_mem (idxs : List Nat) (sp : Nat)
    (toks : List Token) (changed : List Nat) (i : Nat) (h : i ∈ idxs) :
    ((relabelRun toks changed idxs sp).1[i]?).map Token.speaker =
      (toks[i]?).map (fun _ => sp) := by
  induction idxs generalizing toks changed with
  | nil => exact absurd h (List.not_mem_nil i)
  | cons a rest ih =>
    rw [relabelRun, List.foldl_cons]
    cases hstep : relabelStep sp (toks, changed) a with
    | mk toks1 ch1 =>
      rw [show List.foldl (relabelStep sp) (toks1, ch1) rest =
        relabelRun toks1 ch1 rest sp from rfl]
      by_cases hir : i ∈ rest
      · rw [ih toks1 ch1 hir]
        by_cases hia : i = a
        · subst hia
          have hself := relabelStep_getElem_self sp (toks, changed) i
          rw [hstep] at hself
          exact optmap_const_of_map _ _ _ hself
        · have hne := relabelStep_getElem_ne sp (toks, changed) a i hia
          rw [hstep] at hne
          rw [hne]
      · have hia : i = a := by
          rcases List.mem_cons.mp h with h' | h'
          · exact h'
          · exact absurd h' hir
        subst hia
        rw [relabelRun_getElem_ne rest sp toks1 ch1 i hir]
        have := relabelStep_getElem_self sp (toks, changed) i
        rwa [hstep] at this

/-- The turn-list invariants every pipeline stage maintains (established by
`rebuild_turns` after each mutation, see C1): turns partition the token
indices in order and each turn's tokens carry its speaker. -/
def WellFormedTurns (tr : TokenizedTranscript) : Prop :=
  ((tr.turns.map Turn.token_indices).flatten = List.range tr.tokens.length) ∧
  (∀ tu ∈ tr.turns, ∀ i ∈ tu.token_indices,
    (tr.tokens[i]?).map Token.speaker = some tu.speaker)

theorem wf_turn_disjoint {tr : TokenizedTranscript} (hwf : WellFormedTurns tr)
    {k k' : Nat} (hne : k ≠ k') {tu tu' : Turn}
    (hk : tr.turns[k]? = some tu) (hk' : tr.turns[k']? = some tu') :
    ∀ i ∈ tu.token_indices, i ∉ tu'.token_indices := by
  have hnd : ((tr.turns.map Turn.token_indices).flatten).Nodup := by
    rw [hwf.1]
    exact List.nodup_range _
  have hpw := (List.nodup_flatten.mp hnd).2
  have hklen : k < tr.turns.length := by
    by_contra hc
    rw [List.getElem?_eq_none (Nat.le_of_not_lt hc)] at hk
    exact Option.noConfusion hk
  have hklen' : k' < tr.turns.length := by
    by_contra hc
    rw [List.getElem?_eq_none (Nat.le_of_not_lt hc)] at hk'
    exact Option.noConfusion hk'
  have hprop := List.pairwise_iff_getElem.mp hpw
  have hkm : k < (tr.turns.map Turn.token_indices).length := by simpa using hklen
  have hk'm : k' < (tr.turns.map Turn.token_indices).length := by
    simpa using hklen'
  have e1 : tr.turns[k] = tu := by
    have h0 := List.getElem?_eq_getElem (l := tr.turns) hklen
    rw [hk] at h0
    injection h0 with h0
    exact h0.symm
  have e2 : tr.turns[k'] = tu' := by
    have h0 := List.getElem?_eq_getElem (l := tr.turns) hklen'
    rw [hk'] at h0
    injection h0 with h0
    exact h0.symm
  rcases Nat.lt_or_ge k k' with hlt | hge
  · have h12 := hprop k k' hkm hk'm hlt
    rw [List.getElem_map, List.getElem_map, e1, e2] at h12
    exact fun i hi => h12 hi
  · have hlt' : k' < k := Nat.lt_of_le_of_ne hge (Ne.symm hne)
    have h12 := hprop k' k hk'm hkm hlt'
    rw [List.getElem_map, List.getElem_map, e1, e2] at h12
    exact fun i hi hi' => h12 hi' hi

theorem mem_microTurnIdxs {turns : List Turn} {maxd k : Nat} {tu : Turn}
    (hk : turns[k]? = some tu) (hdur : tu.duration_ms < maxd) :
    k ∈ microTurnIdxs turns maxd := by
  rw [microTurnIdxs]
  refine List.mem_map.mpr ⟨(k, tu), ?_, rfl⟩
  refine List.mem_filter.mpr ⟨?_, by simpa using hdur⟩
  exact List.mk_mem_enum_iff_getElem?.mpr hk

theorem microTurnIdxs_mem_turn {turns : List Turn} {maxd k : Nat}
    (h : k ∈ microTurnIdxs turns maxd) : ∃ tu, turns[k]? = some tu := by
  rw [microTurnIdxs] at h
  obtain ⟨p, hp, hpk⟩ := List.mem_map.mp h
  have := List.mk_mem_enum_iff_getElem?.mp
    (by exact (List.mem_filter.mp hp).1 : (p.1, p.2) ∈ turns.enum)
  exact ⟨p.2, hpk ▸ this⟩

theorem microTurnIdxs_nodup (turns : List Turn) (maxd : Nat) :
    (microTurnIdxs turns maxd).Nodup := by
  have h1 : List.Sublist
      (turns.enum.filter fun p => decide (p.2.duration_ms < maxd))
      turns.enum := List.filter_sublist _
  have h2 := (h1.map Prod.fst).nodup
  rw [List.enum_map_fst] at h2
  exact h2 (List.nodup_range _)

theorem microStep_getElem_ne (turns : List Turn)
    (st : List Token × List Nat × Bool) (k' j : Nat)
    (h : j ∉ ((turns[k']?).getD defaultTurn).token_indices) :
    (microStep turns st k').1[j]? = st.1[j]? := by
  obtain ⟨toks, changed, needs⟩ := st
  rw [microStep]
  cases beforeSpeaker turns k' with
  | none => rfl
  | some b =>
    cases afterSpeaker turns k' with
    | none => rfl
    | some a =>
      by_cases hba : b = a
      · simp only [if_pos hba]
        exact relabelRun_getElem_ne _ _ _ _ _ h
      · simp only [if_neg hba]

theorem microStep_needs (turns : List Turn)
    (st : List Token × List Nat × Bool) (k' : Nat) (h : st.2.2 = true) :
    (microStep turns st k').2.2 = true := by
  obtain ⟨toks, changed, needs⟩ := st
  rw [microStep]
  cases beforeSpeaker turns k' with
  | none => exact h
  | some b =>
    cases afterSpeaker turns k' with
    | none => exact h
    | some a =>
      by_cases hba : b = a
      · simp only [if_pos hba]
        exact h
      · simp only [if_neg hba]

theorem microFold_needs (turns : List Turn) (M : List Nat)
    (st : List Token × List Nat × Bool) (h : st.2.2 = true) :
    (M.foldl (microStep turns) st).2.2 = true := by
  induction M generalizing st with
  | nil => exact h
  | cons k rest ih => exact ih _ (microStep_needs turns st k h)

theorem microFold_getElem_ne (turns : List Turn) (M : List Nat)
    (st : List Token × List Nat × Bool) (j : Nat)
    (h : ∀ k' ∈ M, j ∉ ((turns[k']?).getD defaultTurn).token_indices) :
    (M.foldl (microStep turns) st).1[j]? = st.1[j]? := by
  induction M generalizing st with
  | nil => rfl
  | cons k rest ih =>
    rw [List.foldl_cons, ih _ (fun k' hk' => h k' (List.mem_cons_of_mem k hk')),
      microStep_getElem_ne turns st k j (h k (List.mem_cons_self k rest))]

theorem collapse_tokens_speaker_at (tr : TokenizedTranscript) (maxd i : Nat) :
    ((collapse_micro_turns tr maxd).1.tokens[i]?).map Token.speaker =
      (((microTurnIdxs tr.turns maxd).foldl (microStep tr.turns)
          (tr.tokens, [], false)).1[i]?).map Token.speaker := by
  rw [collapse_micro_turns]
  by_cases hch : ((microTurnIdxs tr.turns maxd).foldl (microStep tr.turns)
      (tr.tokens, [], false)).2.1 ≠ []
  · simp only [if_pos hch]
    exact rebuild_turns_speaker_at _ i
  · simp only [if_neg hch]

theorem collapse_needs_eq (tr : TokenizedTranscript) (maxd : Nat) :
    (collapse_micro_turns tr maxd).2.needs_llm =
      ((microTurnIdxs tr.turns maxd).foldl (microStep tr.turns)
        (tr.tokens, [], false)).2.2 := rfl

/-- The five-token transcript of concrete scenario 1 (§8), with its initial
turns derived from the token speakers. -/
def trC4 : TokenizedTranscript :=
  rebuild_turns
    { tokens := [mkTok "t0" 0 "hello" 0 500 0 (19/20),
                 mkTok "t1" 1 "there" 600 1000 0 (19/20),
                 mkTok "t2" 2 "yes" 1100 1200 1 (19/20),
                 mkTok "t3" 3 "how" 1300 1600 0 (19/20),
                 mkTok "t4" 4 "are" 1700 2000 0 (19/20)]
      turns := [], speakers := [0, 1] }

/-- **C4.** Micro-turn collapse: for every well-formed transcript and every
turn shorter than `max_duration_ms`, if the neighbouring turns both exist and
share speaker `S`, all of the micro-turn's tokens end up labelled `S`; if the
neighbouring speakers differ, `needs_llm` is set and the micro-turn's tokens
keep their speaker.  On scenario 1's five tokens with `micro_turn_max_ms =
300`, the `"yes"` token is relabelled to speaker 0 and the final transcript
is a single speaker-0 turn covering all five tokens. -/
theorem microStep_relabel (turns : List Turn) (st : List Token × List Nat × Bool)
    (k S : Nat) (hb : beforeSpeaker turns k = some S)
    (ha : afterSpeaker turns k = some S) :
    microStep turns st k =
      ((relabelRun st.1 st.2.1
          ((turns[k]?).getD defaultTurn).token_indices S).1,
       (relabelRun st.1 st.2.1
          ((turns[k]?).getD defaultTurn).token_indices S).2,
       st.2.2) := by
  rw [microStep, hb, ha]
  simp

theorem microStep_else (turns : List Turn) (st : List Token × List Nat × Bool)
    (k b a : Nat) (hb : beforeSpeaker turns k = some b)
    (ha : afterSpeaker turns k = some a) (hba : b ≠ a) :
    microStep turns st k = (st.1, st.2.1, true) := by
  rw [microStep, hb, ha]
  simp [hba]

/-- **C4.** Micro-turn collapse: for every well-formed transcript and every
turn shorter than `max_duration_ms`, if the neighbouring turns both exist and
share speaker `S`, all of the micro-turn's tokens end up labelled `S`; if the
neighbouring speakers differ, `needs_llm` is set and the micro-turn's tokens
keep their speaker.  On scenario 1's five tokens with `micro_turn_max_ms =
300`, the `"yes"` token is relabelled to speaker 0 and the final transcript
is a single speaker-0 turn covering all five tokens. -/
theorem collapse_micro_turns_spec :
    (∀ (tr : TokenizedTranscript) (maxd k : Nat) (tu : Turn),
      WellFormedTurns tr → tr.turns[k]? = some tu → tu.duration_ms < maxd →
      (∀ S, beforeSpeaker tr.turns k = some S →
        afterSpeaker tr.turns k = some S →
        ∀ i ∈ tu.token_indices,
          ((collapse_micro_turns tr maxd).1.tokens[i]?).map Token.speaker =
            some S) ∧
      (∀ b a, beforeSpeaker tr.turns k = some b →
        afterSpeaker tr.turns k = some a → b ≠ a →
        (collapse_micro_turns tr maxd).2.needs_llm = true ∧
        ∀ i ∈ tu.token_indices,
          ((collapse_micro_turns tr maxd).1.tokens[i]?).map Token.speaker =
            some tu.speaker)) ∧
    ((collapse_micro_turns trC4 300).1.turns.map
        (fun tu => (tu.speaker, tu.token_indices)) = [(0, [0, 1, 2, 3, 4])] ∧
      ((collapse_micro_turns trC4 300).1.tokens[2]?).map Token.speaker =
        some 0) := by
  constructor
  · intro tr maxd k tu hwf hk hdur
    have htumem : tu ∈ tr.turns := List.mem_iff_getElem?.mpr ⟨k, hk⟩
    have hkM : k ∈ microTurnIdxs tr.turns maxd := mem_microTurnIdxs hk hdur
    obtain ⟨m1, m2, hM⟩ := List.append_of_mem hkM
    have hnd := microTurnIdxs_nodup tr.turns maxd
    rw [hM] at hnd
    have hnds := List.nodup_append.mp hnd
    have hknotm1 : k ∉ m1 := fun hc => hnds.2.2 hc (List.mem_cons_self k m2)
    have hknotm2 : k ∉ m2 := (List.nodup_cons.mp hnds.2.1).1
    have hsafe : ∀ i ∈ tu.token_indices, ∀ k', k' ∈ m1 ∨ k' ∈ m2 →
        i ∉ ((tr.turns[k']?).getD defaultTurn).token_indices := by
      intro i hi k' hk'
      have hk'M : k' ∈ microTurnIdxs tr.turns maxd := by
        rw [hM]
        rcases hk' with h | h
        · exact List.mem_append_left _ h
        · exact List.mem_append_right _ (List.mem_cons_of_mem k h)
      obtain ⟨tu', htu'⟩ := microTurnIdxs_mem_turn hk'M
      have hne : k ≠ k' := by
        rintro rfl
        rcases hk' with h | h
        · exact hknotm1 h
        · exact hknotm2 h
      rw [htu']
      exact wf_turn_disjoint hwf hne hk htu' i hi
    rcases hmidst : m1.foldl (microStep tr.turns) (tr.tokens, [], false) with
      ⟨toksM, chM, ndM⟩
    have hmid : ∀ i ∈ tu.token_indices, toksM[i]? = tr.tokens[i]? := by
      intro i hi
      have h0 := microFold_getElem_ne tr.turns m1 (tr.tokens, [], false) i
        (fun k' hk' => hsafe i hi k' (Or.inl hk'))
      rwa [hmidst] at h0
    have hfold : (microTurnIdxs tr.turns maxd).foldl (microStep tr.turns)
        (tr.tokens, [], false) =
        m2.foldl (microStep tr.turns)
          (microStep tr.turns (toksM, chM, ndM) k) := by
      rw [hM, List.foldl_append, List.foldl_cons, hmidst]
    constructor
    · intro S hbS haS i hi
      rw [collapse_tokens_speaker_at, hfold]
      rw [microFold_getElem_ne tr.turns m2 _ i
        (fun k' hk' => hsafe i hi k' (Or.inr hk'))]
      rw [microStep_relabel tr.turns _ k S hbS haS]
      have hcoh := hwf.2 tu htumem i hi
      cases htok : tr.tokens[i]? with
      | none =>
        rw [htok] at hcoh
        exact absurd hcoh (by simp)
      | some tok =>
        have hrun := relabelRun_getElem_mem
          ((tr.turns[k]?).getD defaultTurn).token_indices S toksM chM i
          (by rw [hk]; simpa using hi)
        rw [hrun, hmid i hi, htok]
        rfl
    · intro b a hb ha hba
      constructor
      · rw [collapse_needs_eq, hfold, microStep_else tr.turns _ k b a hb ha hba]
        exact microFold_needs tr.turns m2 _ rfl
      · intro i hi
        rw [collapse_tokens_speaker_at, hfold]
        rw [microFold_getElem_ne tr.turns m2 _ i
          (fun k' hk' => hsafe i hi k' (Or.inr hk'))]
        rw [microStep_else tr.turns _ k b a hb ha hba]
        show ((toksM[i]?).map Token.speaker) = some tu.speaker
        rw [hmid i hi]
        exact hwf.2 tu htumem i hi
  · constructor
    · with_unfolding_all decide
    · with_unfolding_all decide

/-- The micro turn of scenario 1 inside `trC4`. -/
def tuC4 : Turn :=
  { turn_id := "turn_1", speaker := 1, start_ms := 1100, end_ms := 1200
    token_indices := [2] }

set_option maxRecDepth 400000 in
/-- Witness for C4: on the scenario-1 transcript, the general micro-turn rule
applied to turn 1 relabels token 2 to the surrounding speaker 0. -/
theorem collapse_micro_turns_spec_witness :
    ((collapse_micro_turns trC4 300).1.tokens[2]?).map Token.speaker =
      some 0 := by
  have h := (collapse_micro_turns_spec.1 trC4 300 1 tuC4
    (by unfold WellFormedTurns; with_unfolding_all decide)
    (by with_unfolding_all decide)
    (by with_unfolding_all decide)).1 0
    (by with_unfolding_all decide) (by with_unfolding_all decide) 2
    (by with_unfolding_all decide)
  exact h


/-! ## Backchannel re-attribution (`src/heuristics/backchannels.rs`) -/

/-- Bump a speaker's count in an association list (insertion order), the
embedding of `*speaker_words.entry(t.speaker).or_insert(0) += 1`. -/
def bumpCount (l : List (Nat × Nat)) (sp : Nat) : List (Nat × Nat) :=
  match l with
  | [] => [(sp, 1)]
  | (s, c) :: t => if s = sp then (s, c + 1) :: t else (s, c) :: bumpCount t sp

/-- Per-speaker token counts over the context window, excluding the
candidate token itself; intersection is `t.start_ms < end_time ∧ t.end_ms >
start_time`. -/
def speakerWordCounts (toks : List Token) (token_idx start_time end_time : Nat) :
    List (Nat × Nat) :=
  toks.enum.foldl
    (fun acc p =>
      if p.1 = token_idx then acc
      else if p.2.start_ms < end_time ∧ p.2.end_ms > start_time then
        bumpCount acc p.2.speaker
      else acc) []

/-- `max_by_key` over the counts; on ties the later entry wins, mirroring
Rust's `Iterator::max_by_key` (the `HashMap` iteration order itself is
unspecified; this embedding fixes insertion order). -/
def maxByCountLast (l : List (Nat × Nat)) : Option Nat :=
  (l.foldl
    (fun acc p =>
      match acc with
      | none => some p
      | some q => if p.2 ≥ q.2 then some p else some q) none).map Prod.fst

/-- `find_floor_holder` (`src/heuristics/backchannels.rs`). -/
def find_floor_holder (toks : List Token) (token_idx context_ms : Nat) :
    Option Nat :=
  match toks[token_idx]? with
  | none => none
  | some token =>
    maxByCountLast (speakerWordCounts toks token_idx
      (token.start_ms - context_ms) (token.end_ms + context_ms))

/-- `find_listener` (`src/heuristics/backchannels.rs`): the first token in
list order intersecting the ±10 s window whose speaker is not the floor
holder. -/
def find_listener (toks : List Token) (token_idx floor_holder : Nat) :
    Option Nat :=
  match toks[token_idx]? with
  | none => none
  | some token =>
    (toks.find? (fun t =>
      decide (t.start_ms < token.end_ms + 10000) &&
      decide (t.end_ms > token.start_ms - 10000) &&
      decide (t.speaker ≠ floor_holder))).map Token.speaker

/-- The candidate pass of `apply_backchannel_rules`: backchannel-word tokens
that are in an overlap region or have `speaker_conf < 0.7`, with their
current speaker captured read-only. -/
def backchannelCandidates (toks : List Token) (bw : List String) :
    List (Nat × Nat) :=
  (toks.enum.filter (fun p =>
    (bw.any fun b => p.2.word.toLower == b) &&
    (p.2.is_overlap_region || decide (p.2.speaker_conf < 7/10)))).map
    (fun p => (p.1, p.2.speaker))

/-- One iteration of the candidate-processing loop of
`apply_backchannel_rules`. -/
def bcStep (st : List Token × List Nat × Bool) (c : Nat × Nat) :
    List Token × List Nat × Bool :=
  match find_floor_holder st.1 c.1 5000 with
  | some holder =>
    if c.2 = holder then
      match find_listener st.1 c.1 holder with
      | some new_speaker => (setSpeakerAt st.1 c.1 new_speaker,
          st.2.1 ++ [c.1], st.2.2)
      | none => (st.1, st.2.1, true)
    else st
  | none => st

/-- `apply_backchannel_rules` (`src/heuristics/backchannels.rs`). -/
def apply_backchannel_rules (tr : TokenizedTranscript) (bw : List String) :
    TokenizedTranscript × HeuristicsResult :=
  let st := (backchannelCandidates tr.tokens bw).foldl bcStep
    (tr.tokens, [], false)
  let tr' : TokenizedTranscript := { tr with tokens := st.1 }
  let tr'' := if st.2.1 ≠ [] then rebuild_turns tr' else tr'
  (tr'', { tokens_relabeled := st.2.1.length, changed_indices := st.2.1
           needs_llm := st.2.2 })

theorem setSpeakerAt_length (toks : List Token) (i sp : Nat) :
    (setSpeakerAt toks i sp).length = toks.length := by
  rw [setSpeakerAt]
  cases toks[i]? with
  | none => rfl
  | some t => simp

theorem bcStep_getElem_ne (st : List Token × List Nat × Bool) (c : Nat × Nat)
    (j : Nat) (h : j ≠ c.1) : (bcStep st c).1[j]? = st.1[j]? := by
  rw [bcStep]
  cases find_floor_holder st.1 c.1 5000 with
  | none => rfl
  | some holder =>
    by_cases hc : c.2 = holder
    · simp only [if_pos hc]
      cases find_listener st.1 c.1 holder with
      | none => rfl
      | some ns => exact setSpeakerAt_getElem_ne _ _ _ _ (Ne.symm h)
    · simp only [if_neg hc]

theorem bcFold_getElem_ne (cs : List (Nat × Nat))
    (st : List Token × List Nat × Bool) (j : Nat)
    (h : j ∉ cs.map Prod.fst) :
    (cs.foldl bcStep st).1[j]? = st.1[j]? := by
  induction cs generalizing st with
  | nil => rfl
  | cons c rest ih =>
    rw [List.foldl_cons,
      ih _ (fun hm => h (List.mem_cons_of_mem _ hm)),
      bcStep_getElem_ne st c j
        (fun he => h (he ▸ List.mem_cons_self _ _))]

theorem bcStep_needs (st : List Token × List Nat × Bool) (c : Nat × Nat)
    (h : st.2.2 = true) : (bcStep st c).2.2 = true := by
  rw [bcStep]
  cases find_floor_holder st.1 c.1 5000 with
  | none => exact h
  | some holder =>
    by_cases hc : c.2 = holder
    · simp only [if_pos hc]
      cases find_listener st.1 c.1 holder with
      | none => rfl
      | some ns => exact h
    · simp only [if_neg hc]
      exact h

theorem bcFold_needs (cs : List (Nat × Nat))
    (st : List Token × List Nat × Bool) (h : st.2.2 = true) :
    (cs.foldl bcStep st).2.2 = true := by
  induction cs generalizing st with
  | nil => exact h
  | cons c rest ih => exact ih _ (bcStep_needs st c h)

theorem bcStep_length (st : List Token × List Nat × Bool) (c : Nat × Nat) :
    (bcStep st c).1.length = st.1.length := by
  rw [bcStep]
  cases find_floor_holder st.1 c.1 5000 with
  | none => rfl
  | some holder =>
    by_cases hc : c.2 = holder
    · simp only [if_pos hc]
      cases find_listener st.1 c.1 holder with
      | none => rfl
      | some ns => exact setSpeakerAt_length _ _ _
    · simp only [if_neg hc]

theorem bcFold_length (cs : List (Nat × Nat))
    (st : List Token × List Nat × Bool) :
    (cs.foldl bcStep st).1.length = st.1.length := by
  induction cs generalizing st with
  | nil => rfl
  | cons c rest ih => rw [List.foldl_cons, ih, bcStep_length]

theorem backchannelCandidates_fst_nodup (toks : List Token) (bw : List String) :
    ((backchannelCandidates toks bw).map Prod.fst).Nodup := by
  have h1 : List.Sublist
      (toks.enum.filter (fun p =>
        (bw.any fun b => p.2.word.toLower == b) &&
        (p.2.is_overlap_region || decide (p.2.speaker_conf < 7/10))))
      toks.enum := List.filter_sublist _
  have h2 := (h1.map Prod.fst).nodup
  rw [List.enum_map_fst] at h2
  have h3 : (backchannelCandidates toks bw).map Prod.fst =
      (toks.enum.filter (fun p =>
        (bw.any fun b => p.2.word.toLower == b) &&
        (p.2.is_overlap_region || decide (p.2.speaker_conf < 7/10)))).map
        Prod.fst := by
    rw [backchannelCandidates, List.map_map]
    rfl
  rw [h3]
  exact h2 (List.nodup_range _)

theorem backchannelCandidates_lt_length (toks : List Token) (bw : List String)
    (i csp : Nat) (h : (i, csp) ∈ backchannelCandidates toks bw) :
    i < toks.length := by
  rw [backchannelCandidates] at h
  obtain ⟨p, hp, hpe⟩ := List.mem_map.mp h
  have hpenum := (List.mem_filter.mp hp).1
  have : p.1 < toks.length := by
    have h4 := List.mk_mem_enum_iff_getElem?.mp (by exact hpenum)
    by_contra hc
    rw [List.getElem?_eq_none (Nat.le_of_not_lt hc)] at h4
    exact Option.noConfusion h4
  have : p.1 = i := congrArg Prod.fst hpe
  omega

theorem bc_tokens_speaker_at (tr : TokenizedTranscript) (bw : List String)
    (i : Nat) :
    ((apply_backchannel_rules tr bw).1.tokens[i]?).map Token.speaker =
      (((backchannelCandidates tr.tokens bw).foldl bcStep
        (tr.tokens, [], false)).1[i]?).map Token.speaker := by
  rw [apply_backchannel_rules]
  by_cases hch : ((backchannelCandidates tr.tokens bw).foldl bcStep
      (tr.tokens, [], false)).2.1 ≠ []
  · simp only [if_pos hch]
    exact rebuild_turns_speaker_at _ i
  · simp only [if_neg hch]

theorem bc_needs_eq (tr : TokenizedTranscript) (bw : List String) :
    (apply_backchannel_rules tr bw).2.needs_llm =
      ((backchannelCandidates tr.tokens bw).foldl bcStep
        (tr.tokens, [], false)).2.2 := rfl

theorem bcStep_relabel (st : List Token × List Nat × Bool) (i csp h ns : Nat)
    (hfh : find_floor_holder st.1 i 5000 = some h) (hcsp : csp = h)
    (hls : find_listener st.1 i h = some ns) :
    bcStep st (i, csp) = (setSpeakerAt st.1 i ns, st.2.1 ++ [i], st.2.2) := by
  simp only [bcStep, hfh]
  rw [if_pos hcsp]
  rw [hls]

theorem bcStep_nolistener (st : List Token × List Nat × Bool) (i csp h : Nat)
    (hfh : find_floor_holder st.1 i 5000 = some h) (hcsp : csp = h)
    (hls : find_listener st.1 i h = none) :
    bcStep st (i, csp) = (st.1, st.2.1, true) := by
  simp only [bcStep, hfh]
  rw [if_pos hcsp]
  rw [hls]

/-- Scenario 2's tokens with a listener: speaker 1 has a token within ±10 s
of the low-confidence `"yeah"`. -/
def trC5a : TokenizedTranscript :=
  rebuild_turns
    { tokens := [mkTok "b0" 0 "so" 0 200 0 (19/20),
                 mkTok "b1" 1 "i" 300 400 0 (19/20),
                 mkTok "b2" 2 "think" 500 700 0 (19/20),
                 mkTok "b3" 3 "yeah" 800 900 0 (1/2),
                 mkTok "b4" 4 "that" 1000 1200 0 (19/20),
                 mkTok "b5" 5 "hello" 5000 5200 1 (19/20)]
      turns := [], speakers := [0, 1] }

/-- Scenario 2's tokens without any other speaker in range. -/
def trC5b : TokenizedTranscript :=
  rebuild_turns
    { tokens := [mkTok "b0" 0 "so" 0 200 0 (19/20),
                 mkTok "b1" 1 "i" 300 400 0 (19/20),
                 mkTok "b2" 2 "think" 500 700 0 (19/20),
                 mkTok "b3" 3 "yeah" 800 900 0 (1/2),
                 mkTok "b4" 4 "that" 1000 1200 0 (19/20)]
      turns := [], speakers := [0] }

/-- **C5.** Backchannel re-attribution: a candidate token (backchannel word,
in an overlap region or with `speaker_conf < 0.7`) whose captured speaker
equals the floor holder is relabelled to the first listener (another speaker
with a token intersecting the ±10 s window) when one exists; with no
listener, `needs_llm` is set and the token keeps its original speaker.  On
scenario 2's tokens, `"yeah"` is relabelled to the listener speaker 1 when
one is in range, and with no other speaker in range `needs_llm` is set and
no relabel happens. -/
theorem apply_backchannel_rules_spec :
    (∀ (tr : TokenizedTranscript) (bw : List String)
       (pre post : List (Nat × Nat)) (i csp h : Nat),
      backchannelCandidates tr.tokens bw = pre ++ (i, csp) :: post →
      find_floor_holder (pre.foldl bcStep (tr.tokens, [], false)).1 i 5000 =
        some h →
      csp = h →
      (∀ ns, find_listener (pre.foldl bcStep (tr.tokens, [], false)).1 i h =
          some ns →
        ((apply_backchannel_rules tr bw).1.tokens[i]?).map Token.speaker =
          some ns) ∧
      (find_listener (pre.foldl bcStep (tr.tokens, [], false)).1 i h = none →
        (apply_backchannel_rules tr bw).2.needs_llm = true ∧
        ((apply_backchannel_rules tr bw).1.tokens[i]?).map Token.speaker =
          (tr.tokens[i]?).map Token.speaker)) ∧
    (((apply_backchannel_rules trC5a
        defaultHeuristicsConfig.backchannel_words).1.tokens[3]?).map
        Token.speaker = some 1) ∧
    ((apply_backchannel_rules trC5b
        defaultHeuristicsConfig.backchannel_words).2.needs_llm = true ∧
      ((apply_backchannel_rules trC5b
        defaultHeuristicsConfig.backchannel_words).1.tokens[3]?).map
        Token.speaker = some 0) := by
  refine ⟨?_, ?_, ?_⟩
  · intro tr bw pre post i csp h hcand hfh hcsp
    have hmem : (i, csp) ∈ backchannelCandidates tr.tokens bw := by
      rw [hcand]
      exact List.mem_append_right _ (List.mem_cons_self _ _)
    have hilt : i < tr.tokens.length :=
      backchannelCandidates_lt_length tr.tokens bw i csp hmem
    have hnd := backchannelCandidates_fst_nodup tr.tokens bw
    rw [hcand, List.map_append, List.map_cons] at hnd
    have hnds := List.nodup_append.mp hnd
    have hinotpre : i ∉ pre.map Prod.fst :=
      fun hc => hnds.2.2 hc (List.mem_cons_self _ _)
    have hinotpost : i ∉ post.map Prod.fst := (List.nodup_cons.mp hnds.2.1).1
    rcases hmidst : pre.foldl bcStep (tr.tokens, [], false) with ⟨toksM, chM, ndM⟩
    rw [hmidst] at hfh
    have hmidtok : toksM[i]? = tr.tokens[i]? := by
      have h0 := bcFold_getElem_ne pre (tr.tokens, [], false) i hinotpre
      rw [hmidst] at h0
      exact h0
    have hfold : (backchannelCandidates tr.tokens bw).foldl bcStep
        (tr.tokens, [], false) =
        post.foldl bcStep (bcStep (toksM, chM, ndM) (i, csp)) := by
      rw [hcand, List.foldl_append, List.foldl_cons, hmidst]
    constructor
    · intro ns hls
      rw [bc_tokens_speaker_at, hfold]
      rw [bcFold_getElem_ne post _ i hinotpost]
      rw [bcStep_relabel (toksM, chM, ndM) i csp h ns hfh hcsp hls]
      show ((setSpeakerAt toksM i ns)[i]?).map Token.speaker = some ns
      rw [setSpeakerAt_getElem_self, hmidtok,
        List.getElem?_eq_getElem hilt]
      rfl
    · intro hls
      constructor
      · rw [bc_needs_eq, hfold,
          bcStep_nolistener (toksM, chM, ndM) i csp h hfh hcsp hls]
        exact bcFold_needs post _ rfl
      · rw [bc_tokens_speaker_at, hfold,
          bcFold_getElem_ne post _ i hinotpost,
          bcStep_nolistener (toksM, chM, ndM) i csp h hfh hcsp hls]
        show (toksM[i]?).map Token.speaker = _
        rw [hmidtok]
  · with_unfolding_all decide
  · with_unfolding_all decide

set_option maxRecDepth 400000 in
/-- Witness for C5 at scenario 2's transcript with a listener: the general
rule applied to the single candidate `("yeah", speaker 0)` relabels it to
listener speaker 1. -/
theorem apply_backchannel_rules_spec_witness :
    ((apply_backchannel_rules trC5a
        defaultHeuristicsConfig.backchannel_words).1.tokens[3]?).map
      Token.speaker = some 1 := by
  have h := (apply_backchannel_rules_spec.1 trC5a
    defaultHeuristicsConfig.backchannel_words [] [] 3 0 0
    (by with_unfolding_all decide) (by with_unfolding_all decide) rfl).1 1
    (by with_unfolding_all decide)
  exact h

/-! ## Floor holding (`src/heuristics/floor_holding.rs`)

`f64::exp` appears only in the score decay; it is passed in as `E : ℚ → ℚ`.
Concrete instances use inputs whose tokens share one timestamp, so every call
is `E 0` and IEEE `exp 0 = 1` exactly. -/

/-- `FloorState` from `src/heuristics/floor_holding.rs`, with the `HashMap`
of scores as an insertion-ordered association list. -/
structure FloorState where
  scores : List (Nat × ℚ)
  current_time_ms : Nat
deriving DecidableEq, Repr

/-- `*self.scores.entry(speaker).or_insert(0.0) += boost`. -/
def bumpScore (l : List (Nat × ℚ)) (sp : Nat) (boost : ℚ) : List (Nat × ℚ) :=
  match l with
  | [] => [(sp, boost)]
  | (s, c) :: t =>
    if s = sp then (s, c + boost) :: t else (s, c) :: bumpScore t sp boost

/-- `FloorState::update`: decay by `E (−decay_per_second · Δt)`, boost the
speaker by `duration/1000 · 0.5`, normalise when the maximum exceeds 1. -/
def FloorState.update (E : ℚ → ℚ) (cfg : HeuristicsConfig) (st : FloorState)
    (speaker duration_ms timestamp_ms : Nat) : FloorState :=
  let elapsed_seconds : ℚ := ((timestamp_ms - st.current_time_ms : Nat) : ℚ) / 1000
  let decay := E (-(cfg.floor_decay_per_second * elapsed_seconds))
  let scores1 := st.scores.map (fun p => (p.1, p.2 * decay))
  let boost := ((duration_ms : ℚ) / 1000) * (1/2)
  let scores2 := bumpScore scores1 speaker boost
  let max_score := scores2.foldl (fun m p => max m p.2) 0
  let scores3 :=
    if max_score > 1 then scores2.map (fun p => (p.1, p.2 / max_score))
    else scores2
  { scores := scores3, current_time_ms := timestamp_ms }

/-- `FloorState::floor_holder`: among scores `≥ min_score`, the speaker with
the maximal score; on ties the later entry wins, mirroring `max_by`. -/
def FloorState.floor_holder (st : FloorState) (min_score : ℚ) : Option Nat :=
  ((st.scores.filter (fun p => decide (p.2 ≥ min_score))).foldl
    (fun acc p =>
      match acc with
      | none => some p
      | some q => if p.2 ≥ q.2 then some p else some q) none).map Prod.fst

/-- `is_rapid_floor_flip` (`src/heuristics/floor_holding.rs`): the token's
speaker differs from the floor holder and the maximal run of consecutive
same-speaker tokens through it has length at most 2. -/
def is_rapid_floor_flip (toks : List Token) (token_idx : Nat)
    (st : FloorState) (cfg : HeuristicsConfig) : Bool :=
  match st.floor_holder cfg.min_floor_score with
  | none => false
  | some fh =>
    match toks[token_idx]? with
    | none => false
    | some token =>
      if token.speaker = fh then false
      else
        let back := ((toks.take token_idx).reverse.takeWhile
          (fun t => t.speaker == token.speaker)).length
        let ahead := ((toks.drop (token_idx + 1)).takeWhile
          (fun t => t.speaker == token.speaker)).length
        decide (1 + back + ahead ≤ 2)

/-- `should_relabel_to_floor_holder`: both immediate neighbours carry the
floor holder's speaker. -/
def should_relabel_to_floor_holder (toks : List Token)
    (token_idx floor_holder : Nat) : Bool :=
  let prev := if token_idx > 0 then (toks[token_idx - 1]?).map Token.speaker
    else none
  let next := (toks[token_idx + 1]?).map Token.speaker
  match prev, next with
  | some p, some n => decide (p = floor_holder) && decide (n = floor_holder)
  | _, _ => false

/-- One iteration of the second pass of `apply_floor_holding`: update the
floor state with the current token, skip high-confidence tokens, otherwise
treat a rapid floor flip. -/
def floorStep (E : ℚ → ℚ) (cfg : HeuristicsConfig)
    (st : List Token × FloorState × List Nat × Bool) (i : Nat) :
    List Token × FloorState × List Nat × Bool :=
  match st.1[i]? with
  | none => st
  | some token =>
    let fs := st.2.1.update E cfg token.speaker token.duration_ms token.start_ms
    if token.speaker_conf ≥ 8/10 then (st.1, fs, st.2.2.1, st.2.2.2)
    else if is_rapid_floor_flip st.1 i fs cfg then
      match fs.floor_holder cfg.min_floor_score with
      | some holder =>
        if token.speaker ≠ holder then
          if should_relabel_to_floor_holder st.1 i holder then
            (setSpeakerAt st.1 i holder, fs, st.2.2.1 ++ [i], st.2.2.2)
          else (st.1, fs, st.2.2.1, true)
        else (st.1, fs, st.2.2.1, st.2.2.2)
      | none => (st.1, fs, st.2.2.1, st.2.2.2)
    else (st.1, fs, st.2.2.1, st.2.2.2)

/-- `apply_floor_holding` (`src/heuristics/floor_holding.rs`).  The source's
first pass builds a floor state and immediately discards it (the state is
reset before the second pass), so only the second pass is modelled. -/
def apply_floor_holding (E : ℚ → ℚ) (tr : TokenizedTranscript)
    (cfg : HeuristicsConfig) : TokenizedTranscript × HeuristicsResult :=
  let st := (List.range tr.tokens.length).foldl (floorStep E cfg)
    (tr.tokens, { scores := [], current_time_ms := 0 }, [], false)
  let tr' : TokenizedTranscript := { tr with tokens := st.1 }
  let tr'' := if st.2.2.1 ≠ [] then rebuild_turns tr' else tr'
  (tr'', { tokens_relabeled := st.2.2.1.length, changed_indices := st.2.2.1
           needs_llm := st.2.2.2 })

/-- The model of `f64::exp` used by concrete floor-holding instances: every
call in those instances has argument `0`, and IEEE `exp 0 = 1` exactly. -/
def unitExp : ℚ → ℚ := fun _ => 1

theorem floorStep_skip (E : ℚ → ℚ) (cfg : HeuristicsConfig)
    (st : List Token × FloorState × List Nat × Bool) (i : Nat) (token : Token)
    (htok : st.1[i]? = some token) (hconf : token.speaker_conf ≥ 8/10) :
    floorStep E cfg st i =
      (st.1, st.2.1.update E cfg token.speaker token.duration_ms token.start_ms,
       st.2.2.1, st.2.2.2) := by
  simp only [floorStep, htok]
  rw [if_pos hconf]

theorem floorStep_relabel (E : ℚ → ℚ) (cfg : HeuristicsConfig)
    (st : List Token × FloorState × List Nat × Bool) (i : Nat) (token : Token)
    (holder : Nat) (htok : st.1[i]? = some token)
    (hconf : token.speaker_conf < 8/10)
    (hrapid : is_rapid_floor_flip st.1 i
      (st.2.1.update E cfg token.speaker token.duration_ms token.start_ms)
      cfg = true)
    (hholder : (st.2.1.update E cfg token.speaker token.duration_ms
      token.start_ms).floor_holder cfg.min_floor_score = some holder)
    (hne : token.speaker ≠ holder)
    (hsr : should_relabel_to_floor_holder st.1 i holder = true) :
    floorStep E cfg st i =
      (setSpeakerAt st.1 i holder,
       st.2.1.update E cfg token.speaker token.duration_ms token.start_ms,
       st.2.2.1 ++ [i], st.2.2.2) := by
  simp only [floorStep, htok]
  rw [if_neg (not_le.mpr hconf), if_pos hrapid]
  simp only [hholder]
  rw [if_pos hne, if_pos hsr]

theorem floorStep_needsllm (E : ℚ → ℚ) (cfg : HeuristicsConfig)
    (st : List Token × FloorState × List Nat × Bool) (i : Nat) (token : Token)
    (holder : Nat) (htok : st.1[i]? = some token)
    (hconf : token.speaker_conf < 8/10)
    (hrapid : is_rapid_floor_flip st.1 i
      (st.2.1.update E cfg token.speaker token.duration_ms token.start_ms)
      cfg = true)
    (hholder : (st.2.1.update E cfg token.speaker token.duration_ms
      token.start_ms).floor_holder cfg.min_floor_score = some holder)
    (hne : token.speaker ≠ holder)
    (hsr : should_relabel_to_floor_holder st.1 i holder = false) :
    floorStep E cfg st i =
      (st.1, st.2.1.update E cfg token.speaker token.duration_ms token.start_ms,
       st.2.2.1, true) := by
  simp only [floorStep, htok]
  rw [if_neg (not_le.mpr hconf), if_pos hrapid]
  simp only [hholder]
  rw [if_pos hne, if_neg (by rw [hsr]; exact Bool.false_ne_true)]

theorem floorStep_getElem_ne (E : ℚ → ℚ) (cfg : HeuristicsConfig)
    (st : List Token × FloorState × List Nat × Bool) (i j : Nat) (h : j ≠ i) :
    (floorStep E cfg st i).1[j]? = st.1[j]? := by
  cases h0 : st.1[i]? with
  | none => simp only [floorStep, h0]
  | some token =>
    simp only [floorStep, h0]
    by_cases h1 : token.speaker_conf ≥ 8/10
    · rw [if_pos h1]
    · rw [if_neg h1]
      by_cases h2 : is_rapid_floor_flip st.1 i
          (st.2.1.update E cfg token.speaker token.duration_ms token.start_ms)
          cfg = true
      · rw [if_pos h2]
        cases hh : (st.2.1.update E cfg token.speaker token.duration_ms
            token.start_ms).floor_holder cfg.min_floor_score with
        | none => simp only [hh]
        | some holder =>
          simp only [hh]
          by_cases h3 : token.speaker ≠ holder
          · rw [if_pos h3]
            by_cases h4 : should_relabel_to_floor_holder st.1 i holder = true
            · rw [if_pos h4]
              exact setSpeakerAt_getElem_ne _ _ _ _ (Ne.symm h)
            · rw [if_neg h4]
          · rw [if_neg h3]
      · rw [if_neg h2]

theorem floorFold_getElem_ne (E : ℚ → ℚ) (cfg : HeuristicsConfig)
    (l : List Nat) (st : List Token × FloorState × List Nat × Bool) (j : Nat)
    (h : ∀ k ∈ l, j ≠ k) :
    (l.foldl (floorStep E cfg) st).1[j]? = st.1[j]? := by
  induction l generalizing st with
  | nil => rfl
  | cons k rest ih =>
    rw [List.foldl_cons, ih _ (fun k' hk' => h k' (List.mem_cons_of_mem k hk')),
      floorStep_getElem_ne E cfg st k j (h k (List.mem_cons_self k rest))]

theorem floorStep_needs (E : ℚ → ℚ) (cfg : HeuristicsConfig)
    (st : List Token × FloorState × List Nat × Bool) (i : Nat)
    (h : st.2.2.2 = true) : (floorStep E cfg st i).2.2.2 = true := by
  cases h0 : st.1[i]? with
  | none => simp only [floorStep, h0]; exact h
  | some token =>
    simp only [floorStep, h0]
    by_cases h1 : token.speaker_conf ≥ 8/10
    · rw [if_pos h1]
      exact h
    · rw [if_neg h1]
      by_cases h2 : is_rapid_floor_flip st.1 i
          (st.2.1.update E cfg token.speaker token.duration_ms token.start_ms)
          cfg = true
      · rw [if_pos h2]
        cases hh : (st.2.1.update E cfg token.speaker token.duration_ms
            token.start_ms).floor_holder cfg.min_floor_score with
        | none => simp only [hh]; exact h
        | some holder =>
          simp only [hh]
          by_cases h3 : token.speaker ≠ holder
          · rw [if_pos h3]
            by_cases h4 : should_relabel_to_floor_holder st.1 i holder = true
            · rw [if_pos h4]
              exact h
            · rw [if_neg h4]
          · rw [if_neg h3]
            exact h
      · rw [if_neg h2]
        exact h

theorem floorFold_needs (E : ℚ → ℚ) (cfg : HeuristicsConfig) (l : List Nat)
    (st : List Token × FloorState × List Nat × Bool) (h : st.2.2.2 = true) :
    (l.foldl (floorStep E cfg) st).2.2.2 = true := by
  induction l generalizing st with
  | nil => exact h
  | cons k rest ih => exact ih _ (floorStep_needs E cfg st k h)

theorem floor_tokens_speaker_at (E : ℚ → ℚ) (tr : TokenizedTranscript)
    (cfg : HeuristicsConfig) (i : Nat) :
    ((apply_floor_holding E tr cfg).1.tokens[i]?).map Token.speaker =
      (((List.range tr.tokens.length).foldl (floorStep E cfg)
        (tr.tokens, { scores := [], current_time_ms := 0 }, [],
          false)).1[i]?).map Token.speaker := by
  rw [apply_floor_holding]
  by_cases hch : ((List.range tr.tokens.length).foldl (floorStep E cfg)
      (tr.tokens, { scores := [], current_time_ms := 0 }, [], false)).2.2.1 ≠ []
  · simp only [if_pos hch]
    exact rebuild_turns_speaker_at _ i
  · simp only [if_neg hch]

theorem floor_needs_eq (E : ℚ → ℚ) (tr : TokenizedTranscript)
    (cfg : HeuristicsConfig) :
    (apply_floor_holding E tr cfg).2.needs_llm =
      ((List.range tr.tokens.length).foldl (floorStep E cfg)
        (tr.tokens, { scores := [], current_time_ms := 0 }, [], false)).2.2.2 :=
  rfl

theorem range_split (n i : Nat) (h : i < n) :
    List.range n = List.range i ++ i :: List.range' (i + 1) (n - i - 1) := by
  rw [List.range_eq_range' n, List.range_eq_range' i]
  have h2 := List.range'_append 0 i (n - i) 1
  have h3 : List.range' 0 i ++ List.range' i (n - i) = List.range' 0 n := by
    have : 0 + 1 * i = i := by omega
    rw [this] at h2
    rw [h2]
    congr 1
    omega
  rw [← h3]
  congr 1
  have h4 : n - i = (n - i - 1) + 1 := by omega
  rw [h4, List.range'_succ]
  congr 2

/-- Counterexample transcript for C8: a single-token interruption by
speaker 1 whose `speaker_conf` is 0.9 (all timestamps 0, so every decay call
is `E 0`). -/
def trC8x : TokenizedTranscript :=
  rebuild_turns
    { tokens := [mkTok "f0" 0 "aa" 0 2000 0 (9/10),
                 mkTok "f1" 1 "bb" 0 0 1 (9/10),
                 mkTok "f2" 2 "cc" 0 2000 0 (9/10)]
      turns := [], speakers := [0, 1] }

set_option maxRecDepth 400000 in
/-- **C8, counterexample.**  In `trC8x`, token 1 is a rapid floor flip at
the floor state the loop reaches (its speaker 1 differs from floor holder 0
and its run has length 1), and its `speaker_conf` (0.9) is not `< 0.8`, so
the claim as stated demands `needs_llm = true`; but `apply_floor_holding`
skips tokens with `speaker_conf ≥ 0.8` entirely: it reports
`needs_llm = false` and relabels nothing. -/
theorem apply_floor_holding_claim_counterexample :
    is_rapid_floor_flip trC8x.tokens 1
      ((((List.range 1).foldl (floorStep unitExp defaultHeuristicsConfig)
        (trC8x.tokens, { scores := [], current_time_ms := 0 }, [],
          false)).2.1).update unitExp defaultHeuristicsConfig 1 0 0)
      defaultHeuristicsConfig = true ∧
    (trC8x.tokens[1]?).map Token.speaker_conf = some (9/10) ∧
    ¬((9/10 : ℚ) < 8/10) ∧
    (apply_floor_holding unitExp trC8x defaultHeuristicsConfig).2.needs_llm =
      false ∧
    (apply_floor_holding unitExp trC8x
      defaultHeuristicsConfig).2.changed_indices = [] := by
  refine ⟨?_, ?_, ?_, ?_, ?_⟩ <;> with_unfolding_all decide

/-- Scenario 3's transcript: a long speaker-0 run, one speaker-1 token with
`speaker_conf = 0.6` sandwiched between speaker-0 tokens (all timestamps 0,
so every decay call is `E 0`). -/
def trC8s : TokenizedTranscript :=
  rebuild_turns
    { tokens := [mkTok "g0" 0 "aa" 0 1000 0 (9/10),
                 mkTok "g1" 1 "bb" 0 1000 0 (9/10),
                 mkTok "g2" 2 "cc" 0 1000 0 (9/10),
                 mkTok "g3" 3 "dd" 0 0 1 (3/5),
                 mkTok "g4" 4 "ee" 0 1000 0 (9/10)]
      turns := [], speakers := [0, 1] }

/-- **C8, amended.**  Floor holding: (i) a token with `speaker_conf ≥ 0.8`
is skipped entirely — the step only advances the floor state, with no
relabel and no `needs_llm`; (ii) for a token with `speaker_conf < 0.8` that
is a rapid floor flip with floor holder `holder ≠` its speaker: if both
immediate neighbours carry `holder`, the token is relabelled to `holder`,
otherwise `needs_llm` is set and the token keeps its speaker.  (iii) On
scenario 3's transcript, the sandwiched low-confidence speaker-1 token is
relabelled to speaker 0. -/
theorem apply_floor_holding_amended :
    (∀ (E : ℚ → ℚ) (cfg : HeuristicsConfig)
       (st : List Token × FloorState × List Nat × Bool) (i : Nat)
       (token : Token),
      st.1[i]? = some token → token.speaker_conf ≥ 8/10 →
      floorStep E cfg st i =
        (st.1, st.2.1.update E cfg token.speaker token.duration_ms
          token.start_ms, st.2.2.1, st.2.2.2)) ∧
    (∀ (E : ℚ → ℚ) (cfg : HeuristicsConfig) (tr : TokenizedTranscript)
       (i : Nat) (token : Token) (holder : Nat),
      i < tr.tokens.length →
      ((List.range i).foldl (floorStep E cfg)
        (tr.tokens, { scores := [], current_time_ms := 0 }, [],
          false)).1[i]? = some token →
      token.speaker_conf < 8/10 →
      is_rapid_floor_flip
        ((List.range i).foldl (floorStep E cfg)
          (tr.tokens, { scores := [], current_time_ms := 0 }, [], false)).1 i
        (((List.range i).foldl (floorStep E cfg)
          (tr.tokens, { scores := [], current_time_ms := 0 }, [],
            false)).2.1.update E cfg token.speaker token.duration_ms
          token.start_ms) cfg = true →
      (((List.range i).foldl (floorStep E cfg)
        (tr.tokens, { scores := [], current_time_ms := 0 }, [],
          false)).2.1.update E cfg token.speaker token.duration_ms
        token.start_ms).floor_holder cfg.min_floor_score = some holder →
      token.speaker ≠ holder →
      (should_relabel_to_floor_holder
          ((List.range i).foldl (floorStep E cfg)
            (tr.tokens, { scores := [], current_time_ms := 0 }, [],
              false)).1 i holder = true →
        ((apply_floor_holding E tr cfg).1.tokens[i]?).map Token.speaker =
          some holder) ∧
      (should_relabel_to_floor_holder
          ((List.range i).foldl (floorStep E cfg)
            (tr.tokens, { scores := [], current_time_ms := 0 }, [],
              false)).1 i holder = false →
        (apply_floor_holding E tr cfg).2.needs_llm = true ∧
        ((apply_floor_holding E tr cfg).1.tokens[i]?).map Token.speaker =
          (tr.tokens[i]?).map Token.speaker)) ∧
    ((apply_floor_holding unitExp trC8s
        defaultHeuristicsConfig).1.tokens[3]?).map Token.speaker = some 0 := by
  refine ⟨?_, ?_, ?_⟩
  · intro E cfg st i token htok hconf
    exact floorStep_skip E cfg st i token htok hconf
  · intro E cfg tr i token holder hilt htok hconf hrapid hholder hne
    have hfold : (List.range tr.tokens.length).foldl (floorStep E cfg)
        (tr.tokens, { scores := [], current_time_ms := 0 }, [], false) =
        (List.range' (i + 1) (tr.tokens.length - i - 1)).foldl
          (floorStep E cfg)
          (floorStep E cfg
            ((List.range i).foldl (floorStep E cfg)
              (tr.tokens, { scores := [], current_time_ms := 0 }, [], false))
            i) := by
      rw [range_split tr.tokens.length i hilt, List.foldl_append,
        List.foldl_cons]
    have hnotmem : ∀ k ∈ List.range' (i + 1) (tr.tokens.length - i - 1),
        i ≠ k := by
      intro k hk
      have := List.mem_range'_1.mp hk
      omega
    have hpre : ((List.range i).foldl (floorStep E cfg)
        (tr.tokens, { scores := [], current_time_ms := 0 }, [],
          false)).1[i]? = tr.tokens[i]? := by
      refine floorFold_getElem_ne E cfg (List.range i) _ i ?_
      intro k hk
      have := List.mem_range.mp hk
      omega
    constructor
    · intro hsr
      rw [floor_tokens_speaker_at, hfold,
        floorFold_getElem_ne E cfg _ _ i hnotmem,
        floorStep_relabel E cfg _ i token holder htok hconf hrapid hholder
          hne hsr]
      have hself := setSpeakerAt_getElem_self
        ((List.range i).foldl (floorStep E cfg)
          (tr.tokens, { scores := [], current_time_ms := 0 }, [], false)).1
        i holder
      rw [htok] at hself
      exact hself
    · intro hsr
      refine ⟨?_, ?_⟩
      · rw [floor_needs_eq, hfold,
          floorStep_needsllm E cfg _ i token holder htok hconf hrapid hholder
            hne hsr]
        exact floorFold_needs E cfg _ _ rfl
      · rw [floor_tokens_speaker_at, hfold,
          floorFold_getElem_ne E cfg _ _ i hnotmem,
          floorStep_needsllm E cfg _ i token holder htok hconf hrapid hholder
            hne hsr]
        exact congrArg (Option.map Token.speaker) hpre
  · with_unfolding_all decide

set_option maxRecDepth 400000 in
/-- Witness for the amended C8 at scenario 3's transcript: the general rule
applied at token 3 relabels it to floor holder 0. -/
theorem apply_floor_holding_amended_witness :
    ((apply_floor_holding unitExp trC8s
        defaultHeuristicsConfig).1.tokens[3]?).map Token.speaker = some 0 := by
  have h := (apply_floor_holding_amended.2.1 unitExp defaultHeuristicsConfig
    trC8s 3 { mkTok "g3" 3 "dd" 0 0 1 (3/5) with turn_id := "turn_1" } 0
    (by with_unfolding_all decide) (by with_unfolding_all decide)
    (by with_unfolding_all decide) (by with_unfolding_all decide)
    (by with_unfolding_all decide) (by with_unfolding_all decide)).1
    (by with_unfolding_all decide)
  exact h

/-! ## Windows, patches and stage 2 (`src/models/window.rs`,
`src/models/patch.rs`, `src/stages/stage2_reconcile.rs`) -/

/-- `ProblemType` from `src/models/window.rs`. -/
inductive ProblemType
  | SpeakerJitter
  | ShortTurn
  | OverlapAdjacent
  | LowConfidence
deriving DecidableEq, Repr

/-- `Window` from `src/models/window.rs`.  The source fields
`anchor_prefix_indices` / `anchor_suffix_indices` are spelled in camel case
here. -/
structure Window where
  window_id : String
  start_ms : Nat
  end_ms : Nat
  token_indices : List Nat
  anchorPrefixIndices : List Nat
  anchorSuffixIndices : List Nat
  is_problem_zone : Bool
  problem_types : List ProblemType
deriving DecidableEq, Repr

/-- `Window::duration_ms`. -/
def Window.duration_ms (w : Window) : Nat :=
  w.end_ms - w.start_ms

/-- `Window::token_count`. -/
def Window.token_count (w : Window) : Nat :=
  w.token_indices.length

/-- `Window::center_ms`. -/
def Window.center_ms (w : Window) : Nat :=
  (w.start_ms + w.end_ms) / 2

/-- `Window::proximity_to_center`: 1 at the centre, falling to 0 at the
edges. -/
def Window.proximity_to_center (w : Window) (timestamp_ms : Nat) : ℚ :=
  let center : ℚ := (w.center_ms : ℚ)
  let half_duration : ℚ := (w.duration_ms : ℚ) / 2
  if half_duration = 0 then 1
  else max 0 (1 - |(timestamp_ms : ℚ) - center| / half_duration)

/-- `WindowSet` from `src/models/window.rs`. -/
structure WindowSet where
  windows : List Window
  problem_window_indices : List Nat
deriving DecidableEq, Repr

/-- `ReasonCode` from `src/models/patch.rs`. -/
inductive ReasonCode
  | JitterShortTurn
  | OverlapBoundary
  | LexicalContinuity
  | DialoguePairing
  | BackchannelAttribution
  | DoNotChange
deriving DecidableEq, Repr

/-- `TokenRelabel` from `src/models/patch.rs`. -/
structure TokenRelabel where
  token_id : String
  new_speaker : Nat
  reason : ReasonCode
deriving DecidableEq, Repr

/-- `TurnEditType` from `src/models/patch.rs`. -/
inductive TurnEditType
  | MergeTurns
  | SplitTurn
deriving DecidableEq, Repr

/-- `TurnEdit` from `src/models/patch.rs`. -/
structure TurnEdit where
  edit_type : TurnEditType
  turn_id : String
  to_turn_id : Option String
  split_at_token_id : Option String
  reason : ReasonCode
deriving DecidableEq, Repr

/-- `PatchNotes` from `src/models/patch.rs`. -/
structure PatchNotes where
  uncertain_tokens : List String
  summary : String
deriving DecidableEq, Repr

/-- `WindowPatch` from `src/models/patch.rs`. -/
structure WindowPatch where
  window_id : String
  token_relabels : List TokenRelabel
  turn_edits : List TurnEdit
  violations : List String
  notes : PatchNotes
deriving DecidableEq, Repr

/-- `WindowPatch::has_violations`. -/
def WindowPatch.has_violations (p : WindowPatch) : Bool :=
  !p.violations.isEmpty

/-- `WindowPatch::relabel_count`. -/
def WindowPatch.relabel_count (p : WindowPatch) : Nat :=
  p.token_relabels.length

/-- `Stage2Config` from `src/stages/stage2_reconcile.rs`. -/
structure Stage2Config where
  min_turn_duration_ms : Nat
  max_switches_per_second : ℚ
  stable_span_confidence : ℚ
  min_windows_for_override : Nat
deriving Repr

/-- Default `Stage2Config`. -/
def defaultStage2Config : Stage2Config :=
  { min_turn_duration_ms := 700, max_switches_per_second := 2
    stable_span_confidence := 8/10, min_windows_for_override := 2 }

/-- `Stage2Result` from `src/stages/stage2_reconcile.rs`. -/
structure Stage2Result where
  tokens_relabeled : Nat
  conflicts_resolved : Nat
deriving DecidableEq, Repr

/-- `LabelCandidate` from `src/stages/stage2_reconcile.rs`. -/
structure LabelCandidate where
  speaker : Nat
  window_id : String
  weight : ℚ
deriving DecidableEq, Repr

/-- The per-speaker weight sums of `weighted_vote`
(`*speaker_weights.entry(c.speaker).or_default() += c.weight`), as an
insertion-ordered association list. -/
def aggregateWeights (cands : List LabelCandidate) : List (Nat × ℚ) :=
  cands.foldl (fun acc c => bumpScore acc c.speaker c.weight) []

/-- `max_by` over the summed weights followed by `unwrap_or(0)`: the later
entry wins ties, mirroring Rust's `Iterator::max_by`.  The list order stands
for the `HashMap`'s unspecified iteration order, so `weighted_vote`'s result
on a tie is `voteFromList` of SOME permutation of `aggregateWeights`. -/
def voteFromList (l : List (Nat × ℚ)) : Nat :=
  ((l.foldl
    (fun acc p =>
      match acc with
      | none => some p
      | some q => if p.2 ≥ q.2 then some p else some q) none).map
    Prod.fst).getD 0

set_option maxRecDepth 10000 in
/-- **C3.** `weighted_vote` has no deterministic tie-break: for one token
with candidates `(s0, w=0.5)` and `(s1, w=0.5)` the summed weights tie, and
the two possible `HashMap` iteration orders of the same weight table produce
different winners (1 under insertion order, 0 under the swapped order) — so
the vote is not "deterministically the smallest speaker id" as the spec
requires.  On the spec's concrete example `(s0,0.8),(s1,0.3),(s0,0.5)` the
sums are 1.3 vs 0.3 and speaker 0 wins under either order, as claimed. -/
theorem weighted_vote_tie_order_dependent :
    aggregateWeights [⟨0, "w_0", 1/2⟩, ⟨1, "w_1", 1/2⟩] =
      [(0, 1/2), (1, 1/2)] ∧
    List.Perm [(1, (1:ℚ)/2), (0, 1/2)]
      (aggregateWeights [⟨0, "w_0", 1/2⟩, ⟨1, "w_1", 1/2⟩]) ∧
    voteFromList [(0, (1:ℚ)/2), (1, 1/2)] = 1 ∧
    voteFromList [(1, (1:ℚ)/2), (0, 1/2)] = 0 ∧
    voteFromList (aggregateWeights
      [⟨0, "w_0", 8/10⟩, ⟨1, "w_1", 3/10⟩, ⟨0, "w_2", 5/10⟩]) = 0 ∧
    voteFromList [(1, (3:ℚ)/10), (0, 13/10)] = 0 := by
  refine ⟨?_, ?_, ?_, ?_, ?_, ?_⟩ <;> with_unfolding_all decide

/-- Relabel the first token with the given id, the embedding of
`tokens.iter_mut().find(...)` followed by a speaker write. -/
def setSpeakerById (toks : List Token) (tid : String) (sp : Nat) :
    List Token :=
  match toks with
  | [] => []
  | t :: rest =>
    if t.token_id = tid then { t with speaker := sp } :: rest
    else t :: setSpeakerById rest tid sp

/-- `candidates.entry(token_id).or_default().push(c)` on an
insertion-ordered association list. -/
def pushCandidate (m : List (String × List LabelCandidate)) (tid : String)
    (c : LabelCandidate) : List (String × List LabelCandidate) :=
  match m with
  | [] => [(tid, [c])]
  | (k, v) :: t =>
    if k = tid then (k, v ++ [c]) :: t else (k, v) :: pushCandidate t tid c

/-- The candidate-collection pass of `execute_stage2`. -/
def collectCandidates (tr : TokenizedTranscript) (windows : WindowSet)
    (patches : List WindowPatch) : List (String × List LabelCandidate) :=
  patches.foldl
    (fun m patch =>
      match windows.windows.find? (fun w => w.window_id == patch.window_id) with
      | none => m
      | some window =>
        patch.token_relabels.foldl
          (fun m relabel =>
            pushCandidate m relabel.token_id
              { speaker := relabel.new_speaker
                window_id := patch.window_id
                weight := window.proximity_to_center
                  (((tr.get_token relabel.token_id).map
                    Token.start_ms).getD window.center_ms) }) m) []

/-- One iteration of the voting loop of `execute_stage2`: stable-span guard,
conflict count, weighted vote, relabel when the winner differs.  State is
`(tokens, tokens_relabeled, conflicts_resolved)`.  (The `HashMap` iteration
order over token ids is unspecified in Rust; each key occurs once, so the
final tokens do not depend on it, and this embedding fixes first-occurrence
order.) -/
def voteStep (cfg : Stage2Config) (st : List Token × Nat × Nat)
    (e : String × List LabelCandidate) : List Token × Nat × Nat :=
  match st.1.find? (fun t => t.token_id == e.1) with
  | none => st
  | some token =>
    if token.speaker_conf ≥ cfg.stable_span_confidence ∧
        (e.2.filter (fun c => decide (c.speaker ≠ token.speaker))).length <
          cfg.min_windows_for_override then st
    else
      let conflicts :=
        if ((e.2.map LabelCandidate.speaker).dedup).length > 1 then st.2.2 + 1
        else st.2.2
      let final_speaker := voteFromList (aggregateWeights e.2)
      if final_speaker ≠ token.speaker then
        (setSpeakerById st.1 e.1 final_speaker, st.2.1 + 1, conflicts)
      else (st.1, st.2.1, conflicts)

/-- One iteration (for one short turn, turns fixed) of the
minimum-turn-duration constraint of `apply_constraints`. -/
def constraintStep (turns : List Turn) (toks : List Token) (k : Nat) :
    List Token :=
  match turns[k]? with
  | none => toks
  | some turn =>
    match beforeSpeaker turns k, afterSpeaker turns k with
    | some p, some n =>
      if p = n ∧ turn.speaker ≠ p then
        turn.token_indices.foldl (fun tks idx => setSpeakerAt tks idx p) toks
      else toks
    | _, _ => toks

/-- `apply_constraints` (`src/stages/stage2_reconcile.rs`): absorb short
turns surrounded by one speaker, last to first, then rebuild; the
switch-rate constraint only logs a warning. -/
def apply_constraints (tr : TokenizedTranscript) (cfg : Stage2Config) :
    TokenizedTranscript :=
  let short_turns := ((tr.turns.enum.filter
    (fun p => p.2.duration_ms < cfg.min_turn_duration_ms)).map Prod.fst)
  let toks := short_turns.reverse.foldl (constraintStep tr.turns) tr.tokens
  rebuild_turns { tr with tokens := toks }

/-- `execute_stage2` (`src/stages/stage2_reconcile.rs`). -/
def execute_stage2 (tr : TokenizedTranscript) (windows : WindowSet)
    (patches : List WindowPatch) (cfg : Stage2Config) :
    TokenizedTranscript × Stage2Result :=
  let cands := collectCandidates tr windows patches
  let st := cands.foldl (voteStep cfg) (tr.tokens, 0, 0)
  let tr' : TokenizedTranscript := { tr with tokens := st.1 }
  let tr'' :=
    if st.2.1 > 0 then apply_constraints (rebuild_turns tr') cfg else tr'
  (tr'', { tokens_relabeled := st.2.1, conflicts_resolved := st.2.2 })

/-! ## C2: frame preservation by every mutating operation -/

theorem setSpeakerAt_map_projFrame (toks : List Token) (i sp : Nat) :
    (setSpeakerAt toks i sp).map projFrame = toks.map projFrame :=
  setSpeakerAt_map projFrame (fun _ _ => rfl) toks i sp

theorem setSpeakerById_map_projFrame (toks : List Token) (tid : String)
    (sp : Nat) :
    (setSpeakerById toks tid sp).map projFrame = toks.map projFrame := by
  induction toks with
  | nil => rfl
  | cons t rest ih =>
    rw [setSpeakerById]
    by_cases h : t.token_id = tid
    · rw [if_pos h]
      simp only [List.map_cons]
      rfl
    · rw [if_neg h]
      simp only [List.map_cons, ih]

theorem relabelStep_map_projFrame (sp : Nat) (tc : List Token × List Nat)
    (i : Nat) : (relabelStep sp tc i).1.map projFrame = tc.1.map projFrame := by
  cases h : tc.1[i]? with
  | none => simp only [relabelStep, h]
  | some t =>
    simp only [relabelStep, h]
    by_cases hs : t.speaker ≠ sp
    · rw [if_pos hs]
      exact setSpeakerAt_map_projFrame _ _ _
    · rw [if_neg hs]

theorem relabelRun_map_projFrame (idxs : List Nat) (sp : Nat)
    (toks : List Token) (changed : List Nat) :
    (relabelRun toks changed idxs sp).1.map projFrame = toks.map projFrame := by
  induction idxs generalizing toks changed with
  | nil => rfl
  | cons i rest ih =>
    rw [relabelRun, List.foldl_cons]
    cases hstep : relabelStep sp (toks, changed) i with
    | mk toks1 ch1 =>
      have h1 := relabelStep_map_projFrame sp (toks, changed) i
      rw [hstep] at h1
      rw [show List.foldl (relabelStep sp) (toks1, ch1) rest =
        relabelRun toks1 ch1 rest sp from rfl, ih toks1 ch1, h1]

theorem microStep_map_projFrame (turns : List Turn)
    (st : List Token × List Nat × Bool) (k : Nat) :
    (microStep turns st k).1.map projFrame = st.1.map projFrame := by
  cases hb : beforeSpeaker turns k with
  | none => simp only [microStep, hb]
  | some b =>
    cases ha : afterSpeaker turns k with
    | none => simp only [microStep, hb, ha]
    | some a =>
      simp only [microStep, hb, ha]
      by_cases hba : b = a
      · rw [if_pos hba]
        exact relabelRun_map_projFrame _ _ _ _
      · rw [if_neg hba]

theorem microFold_map_projFrame (turns : List Turn) (M : List Nat)
    (st : List Token × List Nat × Bool) :
    (M.foldl (microStep turns) st).1.map projFrame = st.1.map projFrame := by
  induction M generalizing st with
  | nil => rfl
  | cons k rest ih => rw [List.foldl_cons, ih, microStep_map_projFrame]

theorem bcStep_map_projFrame (st : List Token × List Nat × Bool)
    (c : Nat × Nat) : (bcStep st c).1.map projFrame = st.1.map projFrame := by
  cases hf : find_floor_holder st.1 c.1 5000 with
  | none => simp only [bcStep, hf]
  | some holder =>
    simp only [bcStep, hf]
    by_cases hc : c.2 = holder
    · rw [if_pos hc]
      cases hl : find_listener st.1 c.1 holder with
      | none => simp only [hl]
      | some ns =>
        simp only [hl]
        exact setSpeakerAt_map_projFrame _ _ _
    · rw [if_neg hc]

theorem bcFold_map_projFrame (cs : List (Nat × Nat))
    (st : List Token × List Nat × Bool) :
    (cs.foldl bcStep st).1.map projFrame = st.1.map projFrame := by
  induction cs generalizing st with
  | nil => rfl
  | cons c rest ih => rw [List.foldl_cons, ih, bcStep_map_projFrame]

theorem floorStep_map_projFrame (E : ℚ → ℚ) (cfg : HeuristicsConfig)
    (st : List Token × FloorState × List Nat × Bool) (i : Nat) :
    (floorStep E cfg st i).1.map projFrame = st.1.map projFrame := by
  cases h0 : st.1[i]? with
  | none => simp only [floorStep, h0]
  | some token =>
    simp only [floorStep, h0]
    by_cases h1 : token.speaker_conf ≥ 8/10
    · rw [if_pos h1]
    · rw [if_neg h1]
      by_cases h2 : is_rapid_floor_flip st.1 i
          (st.2.1.update E cfg token.speaker token.duration_ms token.start_ms)
          cfg = true
      · rw [if_pos h2]
        cases hh : (st.2.1.update E cfg token.speaker token.duration_ms
            token.start_ms).floor_holder cfg.min_floor_score with
        | none => simp only [hh]
        | some holder =>
          simp only [hh]
          by_cases h3 : token.speaker ≠ holder
          · rw [if_pos h3]
            by_cases h4 : should_relabel_to_floor_holder st.1 i holder = true
            · rw [if_pos h4]
              exact setSpeakerAt_map_projFrame _ _ _
            · rw [if_neg h4]
          · rw [if_neg h3]
      · rw [if_neg h2]

theorem floorFold_map_projFrame (E : ℚ → ℚ) (cfg : HeuristicsConfig)
    (l : List Nat) (st : List Token × FloorState × List Nat × Bool) :
    (l.foldl (floorStep E cfg) st).1.map projFrame = st.1.map projFrame := by
  induction l generalizing st with
  | nil => rfl
  | cons k rest ih => rw [List.foldl_cons, ih, floorStep_map_projFrame]

theorem voteStep_map_projFrame (cfg : Stage2Config)
    (st : List Token × Nat × Nat) (e : String × List LabelCandidate) :
    (voteStep cfg st e).1.map projFrame = st.1.map projFrame := by
  cases hf : st.1.find? (fun t => t.token_id == e.1) with
  | none => simp only [voteStep, hf]
  | some token =>
    simp only [voteStep, hf]
    by_cases h1 : token.speaker_conf ≥ cfg.stable_span_confidence ∧
        (e.2.filter (fun c => decide (c.speaker ≠ token.speaker))).length <
          cfg.min_windows_for_override
    · rw [if_pos h1]
    · rw [if_neg h1]
      by_cases h2 : voteFromList (aggregateWeights e.2) ≠ token.speaker
      · simp only [if_pos h2]
        exact setSpeakerById_map_projFrame _ _ _
      · simp only [if_neg h2]

theorem voteFold_map_projFrame (cfg : Stage2Config)
    (cs : List (String × List LabelCandidate)) (st : List Token × Nat × Nat) :
    (cs.foldl (voteStep cfg) st).1.map projFrame = st.1.map projFrame := by
  induction cs generalizing st with
  | nil => rfl
  | cons c rest ih => rw [List.foldl_cons, ih, voteStep_map_projFrame]

theorem setSpeakerAtFold_map_projFrame (idxs : List Nat) (p : Nat)
    (toks : List Token) :
    (idxs.foldl (fun tks idx => setSpeakerAt tks idx p) toks).map projFrame =
      toks.map projFrame := by
  induction idxs generalizing toks with
  | nil => rfl
  | cons i rest ih =>
    rw [List.foldl_cons, ih, setSpeakerAt_map_projFrame]

theorem constraintStep_map_projFrame (turns : List Turn) (toks : List Token)
    (k : Nat) : (constraintStep turns toks k).map projFrame =
      toks.map projFrame := by
  cases ht : turns[k]? with
  | none => simp only [constraintStep, ht]
  | some turn =>
    cases hb : beforeSpeaker turns k with
    | none => simp only [constraintStep, ht, hb]
    | some p =>
      cases ha : afterSpeaker turns k with
      | none => simp only [constraintStep, ht, hb, ha]
      | some n =>
        simp only [constraintStep, ht, hb, ha]
        by_cases h : p = n ∧ turn.speaker ≠ p
        · rw [if_pos h]
          exact setSpeakerAtFold_map_projFrame _ _ _
        · rw [if_neg h]

theorem constraintFold_map_projFrame (turns : List Turn) (ks : List Nat)
    (toks : List Token) :
    (ks.foldl (constraintStep turns) toks).map projFrame =
      toks.map projFrame := by
  induction ks generalizing toks with
  | nil => rfl
  | cons k rest ih => rw [List.foldl_cons, ih, constraintStep_map_projFrame]

theorem apply_constraints_map_projFrame (tr : TokenizedTranscript)
    (cfg : Stage2Config) :
    (apply_constraints tr cfg).tokens.map projFrame =
      tr.tokens.map projFrame := by
  rw [apply_constraints]
  rw [rebuild_turns_map_projFrame]
  exact constraintFold_map_projFrame _ _ _

/-- **C2.** Frame preservation: turn rebuild, micro-turn collapse,
backchannel re-attribution, floor holding (for any decay model `E`), and
stage-2 reconciliation leave every token's `token_id`, `word`, `start_ms`,
`end_ms`, `speaker_conf`, `transcription_conf`, `is_overlap_region`,
`segment_id` and `original_index` unchanged, in sequence — the only token
fields ever mutated are `speaker` and the derived `turn_id`.  In particular
the sequence of `word` values and their `(start_ms, end_ms)` pairs is
identical between input and output of each operation. -/
theorem token_frame_preservation :
    (∀ tr : TokenizedTranscript,
      (rebuild_turns tr).tokens.map projFrame = tr.tokens.map projFrame) ∧
    (∀ (tr : TokenizedTranscript) (maxd : Nat),
      (collapse_micro_turns tr maxd).1.tokens.map projFrame =
        tr.tokens.map projFrame) ∧
    (∀ (tr : TokenizedTranscript) (bw : List String),
      (apply_backchannel_rules tr bw).1.tokens.map projFrame =
        tr.tokens.map projFrame) ∧
    (∀ (E : ℚ → ℚ) (tr : TokenizedTranscript) (cfg : HeuristicsConfig),
      (apply_floor_holding E tr cfg).1.tokens.map projFrame =
        tr.tokens.map projFrame) ∧
    (∀ (tr : TokenizedTranscript) (windows : WindowSet)
       (patches : List WindowPatch) (cfg : Stage2Config),
      (execute_stage2 tr windows patches cfg).1.tokens.map projFrame =
        tr.tokens.map projFrame) := by
  refine ⟨rebuild_turns_map_projFrame, ?_, ?_, ?_, ?_⟩
  · intro tr maxd
    rw [collapse_micro_turns]
    by_cases hch : ((microTurnIdxs tr.turns maxd).foldl (microStep tr.turns)
        (tr.tokens, [], false)).2.1 ≠ []
    · simp only [if_pos hch]
      rw [rebuild_turns_map_projFrame]
      exact microFold_map_projFrame _ _ _
    · simp only [if_neg hch]
      exact microFold_map_projFrame _ _ _
  · intro tr bw
    rw [apply_backchannel_rules]
    by_cases hch : ((backchannelCandidates tr.tokens bw).foldl bcStep
        (tr.tokens, [], false)).2.1 ≠ []
    · simp only [if_pos hch]
      rw [rebuild_turns_map_projFrame]
      exact bcFold_map_projFrame _ _
    · simp only [if_neg hch]
      exact bcFold_map_projFrame _ _
  · intro E tr cfg
    rw [apply_floor_holding]
    by_cases hch : ((List.range tr.tokens.length).foldl (floorStep E cfg)
        (tr.tokens, { scores := [], current_time_ms := 0 }, [],
          false)).2.2.1 ≠ []
    · simp only [if_pos hch]
      rw [rebuild_turns_map_projFrame]
      exact floorFold_map_projFrame _ _ _ _
    · simp only [if_neg hch]
      exact floorFold_map_projFrame _ _ _ _
  · intro tr windows patches cfg
    rw [execute_stage2]
    by_cases hch : ((collectCandidates tr windows patches).foldl
        (voteStep cfg) (tr.tokens, 0, 0)).2.1 > 0
    · simp only [if_pos hch]
      rw [apply_constraints_map_projFrame, rebuild_turns_map_projFrame]
      exact voteFold_map_projFrame _ _ _
    · simp only [if_neg hch]
      exact voteFold_map_projFrame _ _ _

/-! ## Stage 0: speaker-jitter detection (`src/stages/stage0_normalize.rs`) -/

/-- `ProblemZone` from `src/stages/stage0_normalize.rs`. -/
structure ProblemZone where
  start_ms : Nat
  end_ms : Nat
  problem_type : ProblemType
  token_indices : List Nat
deriving DecidableEq, Repr

/-- `ProblemZoneConfig` from `src/models/window.rs`. -/
structure ProblemZoneConfig where
  max_switches_per_10s : Nat
  min_turn_duration_ms : Nat
  overlap_proximity_ms : Nat
  min_speaker_confidence : ℚ
deriving Repr

/-- Default `ProblemZoneConfig`. -/
def defaultProblemZoneConfig : ProblemZoneConfig :=
  { max_switches_per_10s := 3, min_turn_duration_ms := 800
    overlap_proximity_ms := 2000, min_speaker_confidence := 3/5 }

/-- Indices of tokens with `start_ms ∈ [ws, ws + 10_000)`. -/
def jitterTokensInWindow (tr : TokenizedTranscript) (ws : Nat) : List Nat :=
  (tr.tokens.enum.filter (fun p =>
    decide (ws ≤ p.2.start_ms) && decide (p.2.start_ms < ws + 10000))).map
    Prod.fst

/-- Speaker changes between consecutive entries. -/
def countSwitches (sps : List Nat) : Nat :=
  ((sps.zip sps.tail).filter (fun p => decide (p.1 ≠ p.2))).length

/-- The body of one iteration of `detect_speaker_jitter`'s window loop: with
at least two tokens in the 10-second window and more switches than allowed,
emit a `SpeakerJitter` zone spanning the first token's start to the last
token's end. -/
def zoneAt (tr : TokenizedTranscript) (cfg : ProblemZoneConfig) (ws : Nat) :
    Option ProblemZone :=
  let idxs := jitterTokensInWindow tr ws
  if idxs.length < 2 then none
  else
    let sps := idxs.filterMap (fun i => (tr.tokens[i]?).map Token.speaker)
    if countSwitches sps > cfg.max_switches_per_10s then
      some { start_ms := ((idxs.head?.bind
              (fun i => (tr.tokens[i]?).map Token.start_ms)).getD 0)
             end_ms := ((idxs.getLast?.bind
              (fun i => (tr.tokens[i]?).map Token.end_ms)).getD 0)
             problem_type := ProblemType.SpeakerJitter
             token_indices := idxs }
    else none

/-- The `while window_start < total_duration` loop of
`detect_speaker_jitter`, advancing by `window_ms / 2 = 5000` each iteration;
`fuel` bounds the iteration count (the caller passes enough for the loop to
run to completion). -/
def jitterLoopF (tr : TokenizedTranscript) (cfg : ProblemZoneConfig)
    (dur : Nat) : Nat → Nat → List ProblemZone
  | 0, _ => []
  | fuel + 1, ws =>
    if ws < dur then
      (zoneAt tr cfg ws).toList ++ jitterLoopF tr cfg dur fuel (ws + 5000)
    else []

/-- `detect_speaker_jitter` (`src/stages/stage0_normalize.rs`).  Note the
loop starts at `window_start = 0` — not at the first token's `start_ms` —
and stops at `total_duration = last end_ms − first start_ms`. -/
def detect_speaker_jitter (tr : TokenizedTranscript)
    (cfg : ProblemZoneConfig) : List ProblemZone :=
  if tr.tokens.isEmpty then []
  else jitterLoopF tr cfg tr.duration_ms tr.duration_ms 0

/-- Closed form of what `detect_speaker_jitter` computes: the candidate
window starts are `0, 5000, 10000, …` strictly below
`duration_ms = last end_ms − first start_ms` (NOT anchored at the first
token's `start_ms`), each contributing its zone when the switch count
exceeds the limit. -/
def jitterZonesSpec (tr : TokenizedTranscript) (cfg : ProblemZoneConfig) :
    List ProblemZone :=
  if tr.tokens.isEmpty then []
  else (List.range' 0 ((tr.duration_ms + 4999) / 5000) 5000).filterMap
    (zoneAt tr cfg)

theorem jitterLoopF_eq (tr : TokenizedTranscript) (cfg : ProblemZoneConfig)
    (dur : Nat) :
    ∀ (n fuel ws : Nat), (dur - ws + 4999) / 5000 = n → n ≤ fuel →
      jitterLoopF tr cfg dur fuel ws =
        (List.range' ws n 5000).filterMap (zoneAt tr cfg) := by
  intro n
  induction n with
  | zero =>
    intro fuel ws hn _
    have hdw : ¬ws < dur := by omega
    cases fuel with
    | zero => rfl
    | succ f =>
      rw [jitterLoopF, if_neg hdw]
      rfl
  | succ n ih =>
    intro fuel ws hn hf
    have hdw : ws < dur := by omega
    cases fuel with
    | zero => omega
    | succ f =>
      rw [jitterLoopF, if_pos hdw, List.range'_succ, List.filterMap_cons]
      have hrec := ih f (ws + 5000) (by omega) (by omega)
      rw [hrec]
      cases zoneAt tr cfg ws with
      | none => rfl
      | some z => rfl

/-- The six-token transcript starting at 100 s with alternating speakers:
five switches inside the true 10-second window anchored at the first
token. -/
def trC6 : TokenizedTranscript :=
  { tokens := [mkTok "j0" 0 "a" 100000 100500 0 (19/20),
               mkTok "j1" 1 "b" 101000 101500 1 (19/20),
               mkTok "j2" 2 "c" 102000 102500 0 (19/20),
               mkTok "j3" 3 "d" 103000 103500 1 (19/20),
               mkTok "j4" 4 "e" 104000 104500 0 (19/20),
               mkTok "j5" 5 "f" 105000 105500 1 (19/20)]
    turns := [], speakers := [0, 1] }

set_option maxRecDepth 400000 in
/-- **C6, counterexample.**  `trC6`'s first token starts at 100 s; the
10-second window `[100000, 110000)` holds all six tokens with 5 speaker
changes, exceeding the default limit of 3, so the claim demands a
SpeakerJitter zone — but `detect_speaker_jitter` scans windows starting at
0 only up to `duration_ms = 5500` and emits nothing. -/
theorem detect_speaker_jitter_counterexample :
    detect_speaker_jitter trC6 defaultProblemZoneConfig = [] ∧
    jitterTokensInWindow trC6 100000 = [0, 1, 2, 3, 4, 5] ∧
    countSwitches ((jitterTokensInWindow trC6 100000).filterMap
      (fun i => (trC6.tokens[i]?).map Token.speaker)) = 5 ∧
    defaultProblemZoneConfig.max_switches_per_10s < 5 := by
  refine ⟨?_, ?_, ?_, ?_⟩ <;> with_unfolding_all decide

/-- **C6, amended.**  The jitter detector slides its 10-second windows from
`window_start = 0` in 5 000 ms steps while `window_start <
duration_ms` (last token's `end_ms` minus first token's `start_ms`) — it is
not anchored at the first token's `start_ms`.  Each window emits a
SpeakerJitter zone spanning its first token's `start_ms` to its last
token's `end_ms` exactly when it holds at least two tokens whose speaker
changes exceed `max_switches_per_10s`; transcripts whose tokens start after
`duration_ms` (e.g. any transcript offset far from time 0) are never
examined. -/
theorem detect_speaker_jitter_amended (tr : TokenizedTranscript)
    (cfg : ProblemZoneConfig) :
    detect_speaker_jitter tr cfg = jitterZonesSpec tr cfg := by
  rw [detect_speaker_jitter, jitterZonesSpec]
  by_cases he : tr.tokens.isEmpty
  · rw [if_pos he, if_pos he]
  · rw [if_neg he, if_neg he]
    exact jitterLoopF_eq tr cfg tr.duration_ms ((tr.duration_ms + 4999) / 5000)
      tr.duration_ms 0 (by omega) (by omega)

/-! ## Stage 0: window generation (`src/stages/stage0_normalize.rs`) -/

/-- `WindowConfig` from `src/models/window.rs`. -/
structure WindowConfig where
  window_size_ms : Nat
  stride_ms : Nat
  anchor_size_ms : Nat
  filter_problem_zones : Bool
deriving Repr

/-- Default `WindowConfig`. -/
def defaultWindowConfig : WindowConfig :=
  { window_size_ms := 45000, stride_ms := 15000, anchor_size_ms := 5000
    filter_problem_zones := true }

/-- `check_problem_intersection`: the deduplicated kinds of the zones whose
time range overlaps the window. -/
def check_problem_intersection (window_start window_end : Nat)
    (zones : List ProblemZone) : Bool × List ProblemType :=
  let types := zones.foldl
    (fun ts z =>
      if z.start_ms < window_end ∧ z.end_ms > window_start then
        if z.problem_type ∈ ts then ts else ts ++ [z.problem_type]
      else ts) []
  (!types.isEmpty, types)

/-- One candidate window of `build_windows`: kept only when its editable
`token_indices` (tokens with `start_ms ∈ [ws, ws + window_size)`) are
non-empty; anchors are the tokens in the `anchor_size_ms` collars. -/
def mkWindowAt (tr : TokenizedTranscript) (cfg : WindowConfig)
    (zones : List ProblemZone) (ws id : Nat) : Option Window :=
  let window_end := ws + cfg.window_size_ms
  let token_indices := (tr.tokens.enum.filter (fun p =>
    decide (ws ≤ p.2.start_ms) && decide (p.2.start_ms < window_end))).map
    Prod.fst
  if token_indices.isEmpty then none
  else
    let anchor_start := ws - cfg.anchor_size_ms
    let anchor_end := window_end + cfg.anchor_size_ms
    let ipz := check_problem_intersection ws window_end zones
    some
      { window_id := "w_" ++ toString id
        start_ms := ws
        end_ms := window_end
        token_indices := token_indices
        anchorPrefixIndices := (tr.tokens.enum.filter (fun p =>
          decide (anchor_start ≤ p.2.start_ms) &&
          decide (p.2.start_ms < ws))).map Prod.fst
        anchorSuffixIndices := (tr.tokens.enum.filter (fun p =>
          decide (window_end ≤ p.2.start_ms) &&
          decide (p.2.start_ms < anchor_end))).map Prod.fst
        is_problem_zone := ipz.1
        problem_types := ipz.2 }

/-- The `while window_start < start_offset + total_duration` loop of
`build_windows`; window ids increment only when a window is kept.  `fuel`
bounds the iterations (the caller passes enough to exhaust the loop; the
source loops forever when `stride_ms = 0`, which the model truncates). -/
def windowLoopF (tr : TokenizedTranscript) (cfg : WindowConfig)
    (zones : List ProblemZone) (limit : Nat) :
    Nat → Nat → Nat → List Window
  | 0, _, _ => []
  | fuel + 1, ws, id =>
    if ws < limit then
      match mkWindowAt tr cfg zones ws id with
      | some w =>
        w :: windowLoopF tr cfg zones limit fuel (ws + cfg.stride_ms) (id + 1)
      | none => windowLoopF tr cfg zones limit fuel (ws + cfg.stride_ms) id
    else []

/-- `transcript.tokens[0].start_ms` in `build_windows` (the function is only
called on a non-empty token list, so the default is never taken). -/
def startOffset (tr : TokenizedTranscript) : Nat :=
  (tr.tokens.head?.map Token.start_ms).getD 0

/-- `build_windows` (`src/stages/stage0_normalize.rs`). -/
def build_windows (tr : TokenizedTranscript) (cfg : WindowConfig)
    (zones : List ProblemZone) : WindowSet :=
  if tr.tokens.isEmpty then { windows := [], problem_window_indices := [] }
  else
    let total_duration := tr.duration_ms
    let windows := windowLoopF tr cfg zones (startOffset tr + total_duration)
      total_duration (startOffset tr) 0
    let problem_window_indices :=
      if cfg.filter_problem_zones then
        (windows.enum.filter (fun p => p.2.is_problem_zone)).map Prod.fst
      else List.range windows.length
    { windows := windows, problem_window_indices := problem_window_indices }

theorem mem_enum_filter_map_fst (l : List Token) (f : Token → Bool) (i : Nat) :
    (i ∈ (l.enum.filter (fun p => f p.2)).map Prod.fst) ↔
      ∃ t, l[i]? = some t ∧ f t = true := by
  constructor
  · intro h
    obtain ⟨p, hp, hpi⟩ := List.mem_map.mp h
    have hf := List.mem_filter.mp hp
    have hget := List.mk_mem_enum_iff_getElem?.mp
      (by exact hf.1 : (p.1, p.2) ∈ l.enum)
    refine ⟨p.2, ?_, by simpa using hf.2⟩
    rw [← hpi]
    exact hget
  · rintro ⟨t, hget, hf⟩
    refine List.mem_map.mpr ⟨(i, t), ?_, rfl⟩
    refine List.mem_filter.mpr ⟨List.mk_mem_enum_iff_getElem?.mpr hget, by simpa using hf⟩

theorem mkWindowAt_some (tr : TokenizedTranscript) (cfg : WindowConfig)
    (zones : List ProblemZone) (ws id : Nat) (w : Window)
    (h : mkWindowAt tr cfg zones ws id = some w) :
    w.start_ms = ws ∧ w.end_ms = ws + cfg.window_size_ms ∧
    w.token_indices = (tr.tokens.enum.filter (fun p =>
      decide (ws ≤ p.2.start_ms) &&
      decide (p.2.start_ms < ws + cfg.window_size_ms))).map Prod.fst ∧
    w.token_indices ≠ [] := by
  rw [mkWindowAt] at h
  by_cases hemp : ((tr.tokens.enum.filter (fun p =>
      decide (ws ≤ p.2.start_ms) &&
      decide (p.2.start_ms < ws + cfg.window_size_ms))).map
      Prod.fst).isEmpty
  · rw [if_pos hemp] at h
    exact Option.noConfusion h
  · rw [if_neg hemp] at h
    injection h with h
    subst h
    refine ⟨rfl, rfl, rfl, ?_⟩
    intro hnil
    rw [show ((tr.tokens.enum.filter (fun p =>
      decide (ws ≤ p.2.start_ms) &&
      decide (p.2.start_ms < ws + cfg.window_size_ms))).map Prod.fst) = []
      from hnil] at hemp
    exact hemp rfl

theorem mkWindowAt_none (tr : TokenizedTranscript) (cfg : WindowConfig)
    (zones : List ProblemZone) (ws id id2 : Nat)
    (h : mkWindowAt tr cfg zones ws id = none) :
    mkWindowAt tr cfg zones ws id2 = none := by
  rw [mkWindowAt] at h ⊢
  by_cases hemp : ((tr.tokens.enum.filter (fun p =>
      decide (ws ≤ p.2.start_ms) &&
      decide (p.2.start_ms < ws + cfg.window_size_ms))).map
      Prod.fst).isEmpty
  · rw [if_pos hemp]
  · rw [if_neg hemp] at h
    exact Option.noConfusion h

theorem windowLoopF_sound (tr : TokenizedTranscript) (cfg : WindowConfig)
    (zones : List ProblemZone) (limit : Nat) :
    ∀ (fuel ws id : Nat), ∀ w ∈ windowLoopF tr cfg zones limit fuel ws id,
      (∃ k, w.start_ms = ws + k * cfg.stride_ms) ∧ w.start_ms < limit ∧
      w.end_ms = w.start_ms + cfg.window_size_ms ∧
      w.token_indices ≠ [] ∧
      (∀ i, i ∈ w.token_indices ↔ ∃ t, tr.tokens[i]? = some t ∧
        w.start_ms ≤ t.start_ms ∧ t.start_ms < w.start_ms + cfg.window_size_ms) := by
  intro fuel
  induction fuel with
  | zero => intro ws id w hw; exact absurd hw (List.not_mem_nil w)
  | succ f ih =>
    intro ws id w hw
    rw [windowLoopF] at hw
    by_cases hlt : ws < limit
    · rw [if_pos hlt] at hw
      cases hmk : mkWindowAt tr cfg zones ws id with
      | none =>
        rw [hmk] at hw
        obtain ⟨⟨k, hk⟩, h2, h3, h4, h5⟩ := ih (ws + cfg.stride_ms) id w hw
        exact ⟨⟨k + 1, by rw [hk]; ring⟩, h2, h3, h4, h5⟩
      | some w0 =>
        rw [hmk] at hw
        rcases List.mem_cons.mp hw with hw0 | hw'
        · subst hw0
          obtain ⟨hstart, hend, htoks, hne⟩ :=
            mkWindowAt_some tr cfg zones ws id w hmk
          refine ⟨⟨0, by simp [hstart]⟩, hstart ▸ hlt,
            by rw [hend, hstart], hne, ?_⟩
          intro i
          rw [htoks, hstart]
          rw [mem_enum_filter_map_fst tr.tokens
            (fun t => decide (ws ≤ t.start_ms) &&
              decide (t.start_ms < ws + cfg.window_size_ms)) i]
          constructor
          · rintro ⟨t, hget, hf⟩
            simp only [Bool.and_eq_true, decide_eq_true_eq] at hf
            exact ⟨t, hget, hf.1, hf.2⟩
          · rintro ⟨t, hget, h1, h2⟩
            exact ⟨t, hget, by simp [h1, h2]⟩
        · obtain ⟨⟨k, hk⟩, h2, h3, h4, h5⟩ := ih (ws + cfg.stride_ms) (id + 1) w hw'
          exact ⟨⟨k + 1, by rw [hk]; ring⟩, h2, h3, h4, h5⟩
    · rw [if_neg hlt] at hw
      exact absurd hw (List.not_mem_nil w)

theorem windowLoopF_complete (tr : TokenizedTranscript) (cfg : WindowConfig)
    (zones : List ProblemZone) (limit : Nat) (hstride : 0 < cfg.stride_ms) :
    ∀ (fuel ws id k : Nat), ws + k * cfg.stride_ms < limit →
      limit - ws ≤ fuel * cfg.stride_ms →
      mkWindowAt tr cfg zones (ws + k * cfg.stride_ms) 0 ≠ none →
      ∃ w ∈ windowLoopF tr cfg zones limit fuel ws id,
        w.start_ms = ws + k * cfg.stride_ms := by
  intro fuel
  induction fuel with
  | zero =>
    intro ws id k hlt hfuel _
    omega
  | succ f ih =>
    intro ws id k hlt hfuel hne
    have hwslt : ws < limit := by
      have : ws ≤ ws + k * cfg.stride_ms := Nat.le_add_right _ _
      omega
    rw [windowLoopF, if_pos hwslt]
    cases k with
    | zero =>
      simp only [Nat.zero_mul, Nat.add_zero] at hne ⊢
      cases hmk : mkWindowAt tr cfg zones ws id with
      | none =>
        exact absurd (mkWindowAt_none tr cfg zones ws id 0 hmk) hne
      | some w0 =>
        exact ⟨w0, List.mem_cons_self _ _,
          (mkWindowAt_some tr cfg zones ws id w0 hmk).1⟩
    | succ k' =>
      have hrw : ws + (k' + 1) * cfg.stride_ms =
          (ws + cfg.stride_ms) + k' * cfg.stride_ms := by ring
      rw [hrw] at hlt hne
      have hfuel' : limit - (ws + cfg.stride_ms) ≤ f * cfg.stride_ms := by
        have : (f + 1) * cfg.stride_ms = f * cfg.stride_ms + cfg.stride_ms := by
          ring
        omega
      cases hmk : mkWindowAt tr cfg zones ws id with
      | none =>
        obtain ⟨w, hw, hws⟩ := ih (ws + cfg.stride_ms) id k' hlt hfuel' hne
        exact ⟨w, hw, by rw [hws, hrw]⟩
      | some w0 =>
        obtain ⟨w, hw, hws⟩ := ih (ws + cfg.stride_ms) (id + 1) k' hlt hfuel' hne
        exact ⟨w, List.mem_cons_of_mem _ hw, by rw [hws, hrw]⟩

theorem mkWindowAt_ne_none (tr : TokenizedTranscript) (cfg : WindowConfig)
    (zones : List ProblemZone) (ws id : Nat)
    (h : ∃ (i : Nat) (t : Token), tr.tokens[i]? = some t ∧ ws ≤ t.start_ms ∧
      t.start_ms < ws + cfg.window_size_ms) :
    mkWindowAt tr cfg zones ws id ≠ none := by
  obtain ⟨i, t, hget, h1, h2⟩ := h
  have hmem : i ∈ (tr.tokens.enum.filter (fun p =>
      decide (ws ≤ p.2.start_ms) &&
      decide (p.2.start_ms < ws + cfg.window_size_ms))).map Prod.fst :=
    (mem_enum_filter_map_fst tr.tokens
      (fun t => decide (ws ≤ t.start_ms) &&
        decide (t.start_ms < ws + cfg.window_size_ms)) i).mpr
      ⟨t, hget, by simp [h1, h2]⟩
  intro hnone
  rw [mkWindowAt] at hnone
  by_cases hemp : ((tr.tokens.enum.filter (fun p =>
      decide (ws ≤ p.2.start_ms) &&
      decide (p.2.start_ms < ws + cfg.window_size_ms))).map
      Prod.fst).isEmpty
  · rw [List.isEmpty_iff] at hemp
    rw [hemp] at hmem
    exact absurd hmem (List.not_mem_nil i)
  · rw [if_neg hemp] at hnone
    exact Option.noConfusion hnone

theorem build_windows_windows_eq (tr : TokenizedTranscript)
    (cfg : WindowConfig) (zones : List ProblemZone) (hne : tr.tokens ≠ []) :
    (build_windows tr cfg zones).windows =
      windowLoopF tr cfg zones (startOffset tr + tr.duration_ms)
        tr.duration_ms (startOffset tr) 0 := by
  rw [build_windows]
  rw [if_neg (by rw [List.isEmpty_iff]; exact hne)]

/-- The 120-second scenario transcript of spec §8 example 6: 120 one-word
tokens, token `i` spanning `[1000 i, 1000 i + 500)` ms, all speaker 0. -/
def trC9 : TokenizedTranscript :=
  { tokens := (List.range 120).map (fun i =>
      mkTok ("c" ++ toString i) i "w" (i * 1000) (i * 1000 + 500) 0 (19/20))
    turns := [], speakers := [0] }

set_option maxRecDepth 400000 in
/-- C9: for every non-empty transcript (and positive stride), `build_windows`
slides windows from the first token's `start_ms` in steps of `stride_ms`
until past the last token: every produced window starts at
`start_offset + k * stride_ms` for some `k`, below that limit, holds exactly
the token indices whose `start_ms` lies in `[w.start_ms, w.start_ms +
window_size_ms)`, and is non-empty; conversely every grid position below the
limit that covers at least one token yields a window.  On the 120 s scenario
transcript with the default config the window starts are 0, 15, 30, 45, 60,
75, 90, 105 s and the token at 47 s lies exactly in the windows starting at
15, 30 and 45 s. -/
theorem build_windows_spec (tr : TokenizedTranscript) (cfg : WindowConfig)
    (zones : List ProblemZone)
    (hne : tr.tokens ≠ []) (hstride : 0 < cfg.stride_ms) :
    (∀ w ∈ (build_windows tr cfg zones).windows,
      (∃ k, w.start_ms = startOffset tr + k * cfg.stride_ms) ∧
      w.start_ms < startOffset tr + tr.duration_ms ∧
      w.end_ms = w.start_ms + cfg.window_size_ms ∧
      w.token_indices ≠ [] ∧
      (∀ i, i ∈ w.token_indices ↔ ∃ t, tr.tokens[i]? = some t ∧
        w.start_ms ≤ t.start_ms ∧
        t.start_ms < w.start_ms + cfg.window_size_ms)) ∧
    (∀ k, startOffset tr + k * cfg.stride_ms < startOffset tr + tr.duration_ms →
      (∃ (i : Nat) (t : Token), tr.tokens[i]? = some t ∧
        startOffset tr + k * cfg.stride_ms ≤ t.start_ms ∧
        t.start_ms < startOffset tr + k * cfg.stride_ms + cfg.window_size_ms) →
      ∃ w ∈ (build_windows tr cfg zones).windows,
        w.start_ms = startOffset tr + k * cfg.stride_ms) ∧
    ((build_windows trC9 defaultWindowConfig []).windows.map Window.start_ms =
      [0, 15000, 30000, 45000, 60000, 75000, 90000, 105000]) ∧
    (((build_windows trC9 defaultWindowConfig []).windows.filter
        (fun w => decide (47 ∈ w.token_indices))).map Window.start_ms =
      [15000, 30000, 45000]) := by
  rw [build_windows_windows_eq tr cfg zones hne]
  refine ⟨?_, ?_, ?_, ?_⟩
  · intro w hw
    obtain ⟨h1, h2, h3, h4, h5⟩ := windowLoopF_sound tr cfg zones
      (startOffset tr + tr.duration_ms) tr.duration_ms (startOffset tr) 0 w hw
    exact ⟨h1, h2, h3, h4, h5⟩
  · intro k hk hwit
    refine windowLoopF_complete tr cfg zones
      (startOffset tr + tr.duration_ms) hstride tr.duration_ms
      (startOffset tr) 0 k hk ?_ ?_
    · have : tr.duration_ms * 1 ≤ tr.duration_ms * cfg.stride_ms :=
        Nat.mul_le_mul_left _ hstride
      omega
    · exact mkWindowAt_ne_none tr cfg zones _ 0 hwit
  · with_unfolding_all decide
  · with_unfolding_all decide

/-! ## Patch validation (`src/llm/validation.rs`) -/

/-- `ValidationConfig` from `src/llm/validation.rs`. -/
structure ValidationConfig where
  max_edit_budget_percent : ℚ
  allowed_speakers : List Nat
  max_cost_increase : ℚ
deriving Repr

/-- Default `ValidationConfig`. -/
def defaultValidationConfig : ValidationConfig :=
  { max_edit_budget_percent := 3, allowed_speakers := [0, 1, 2, 3]
    max_cost_increase := 10 }

/-- `PatchValidation` from `src/models/patch.rs`. -/
structure PatchValidation where
  is_valid : Bool
  errors : List String
  edit_budget_used : ℚ
deriving Repr

/-- `PatchValidation::valid`. -/
def PatchValidation.valid (edit_budget_used : ℚ) : PatchValidation :=
  { is_valid := true, errors := [], edit_budget_used := edit_budget_used }

/-- `PatchValidation::invalid`. -/
def PatchValidation.invalid (errors : List String) : PatchValidation :=
  { is_valid := false, errors := errors, edit_budget_used := 0 }

/-- The `token_id`s of the tokens at the window's editable `token_indices`
(the `window_token_ids` set in `validate_patch`; only membership in the set
is ever used, so a list is a faithful model). -/
def windowTokenIds (tr : TokenizedTranscript) (w : Window) : List String :=
  (w.token_indices.filterMap (fun i => tr.tokens[i]?)).map Token.token_id

/-- Number of adjacent unequal pairs — `windows(2)` switch counting. -/
def countFlips : List Nat → Nat
  | a :: b :: rest => (if a ≠ b then 1 else 0) + countFlips (b :: rest)
  | _ => 0

/-- A turn's time range overlaps the window's. -/
def turnIntersects (w : Window) (t : Turn) : Bool :=
  decide (t.start_ms < w.end_ms) && decide (t.end_ms > w.start_ms)

/-- `compute_cost`: `5 * switches + 2 * short_turns` over the window's
tokens and the turns intersecting the window. -/
def compute_cost (tr : TokenizedTranscript) (w : Window) : ℚ :=
  let switches :=
    countFlips ((w.token_indices.filterMap (fun i => tr.tokens[i]?)).map
      Token.speaker)
  let short_turns := (tr.turns.filter (fun t =>
    turnIntersects w t && decide (t.duration_ms < 700))).length
  ((5 * switches + 2 * short_turns : Nat) : ℚ)

/-- Lookup in the `token_id → new_speaker` HashMap that
`compute_cost_after_patch` builds: on duplicate `token_id`s the later
relabel overwrites the earlier one, hence the reversed `find?`. -/
def relabelLookup (patch : WindowPatch) (tid : String) : Option Nat :=
  (patch.token_relabels.reverse.find? (fun r => r.token_id == tid)).map
    TokenRelabel.new_speaker

/-- `compute_cost_after_patch`: switches are recounted on the relabelled
speaker sequence; the short-turn term is deliberately taken from the
*pre-patch* turns (the source comments that it does not rebuild turns). -/
def compute_cost_after_patch (tr : TokenizedTranscript) (w : Window)
    (patch : WindowPatch) : ℚ :=
  let speakers := (w.token_indices.filterMap (fun i => tr.tokens[i]?)).map
    (fun t => (relabelLookup patch t.token_id).getD t.speaker)
  let switches := countFlips speakers
  let short_turns := (tr.turns.filter (fun t =>
    turnIntersects w t && decide (t.duration_ms < 700))).length
  ((5 * switches + 2 * short_turns : Nat) : ℚ)

/-- `ceil(token_count * max_edit_budget_percent / 100) as usize` (the `as
usize` cast clamps negatives to 0, as does `Int.toNat`). -/
def editBudget (w : Window) (cfg : ValidationConfig) : Nat :=
  (Int.ceil ((w.token_count : ℚ) * cfg.max_edit_budget_percent / 100)).toNat

/-- The error list accumulated by `validate_patch`, in source order.  The
source's check 5 (re-finding each relabelled token) pushes no error and is
omitted. -/
def validationErrors (patch : WindowPatch) (tr : TokenizedTranscript)
    (w : Window) (cfg : ValidationConfig) : List String :=
  (if patch.has_violations then
    ["Patch has self-reported violations"] else [])
  ++ patch.token_relabels.filterMap (fun r =>
      if r.token_id ∈ windowTokenIds tr w then none
      else some ("Token " ++ r.token_id ++ " is not in the editable window"))
  ++ patch.token_relabels.filterMap (fun r =>
      if r.new_speaker ∈ cfg.allowed_speakers then none
      else some ("Speaker " ++ toString r.new_speaker ++ " is not allowed"))
  ++ (if patch.relabel_count > editBudget w cfg then
    ["Edit budget exceeded"] else [])
  ++ (if compute_cost_after_patch tr w patch - compute_cost tr w >
      cfg.max_cost_increase then
    ["Cost increase too high"] else [])

/-- `validate_patch` (`src/llm/validation.rs`). -/
def validate_patch (patch : WindowPatch) (tr : TokenizedTranscript)
    (w : Window) (cfg : ValidationConfig) : PatchValidation :=
  let errors := validationErrors patch tr w cfg
  let edit_budget_used : ℚ :=
    if w.token_count > 0 then
      (patch.relabel_count : ℚ) / (w.token_count : ℚ) * 100
    else 0
  if errors.isEmpty then PatchValidation.valid edit_budget_used
  else PatchValidation.invalid errors

theorem guard_list_eq_nil {c : Prop} [Decidable c] (msg : String) :
    ((if c then [msg] else []) = []) ↔ ¬ c := by
  by_cases h : c <;> simp [h]

theorem filterMap_guard_eq_nil {α β : Type} (l : List α) (p : α → Prop)
    [DecidablePred p] (m : α → β) :
    (l.filterMap (fun a => if p a then none else some (m a)) = []) ↔
      ∀ a ∈ l, p a := by
  rw [List.filterMap_eq_nil_iff]
  constructor
  · intro h a ha
    have hh := h a ha
    by_cases hp : p a
    · exact hp
    · rw [if_neg hp] at hh
      exact Option.noConfusion hh
  · intro h a ha
    rw [if_pos (h a ha)]

theorem validationErrors_eq_nil (patch : WindowPatch)
    (tr : TokenizedTranscript) (w : Window) (cfg : ValidationConfig) :
    (validationErrors patch tr w cfg = []) ↔
      (patch.violations = [] ∧
       (∀ r ∈ patch.token_relabels, r.token_id ∈ windowTokenIds tr w) ∧
       (∀ r ∈ patch.token_relabels, r.new_speaker ∈ cfg.allowed_speakers) ∧
       patch.relabel_count ≤ editBudget w cfg ∧
       compute_cost_after_patch tr w patch - compute_cost tr w ≤
         cfg.max_cost_increase) := by
  rw [validationErrors]
  simp only [List.append_eq_nil]
  constructor
  · rintro ⟨⟨⟨⟨h1, h2⟩, h3⟩, h4⟩, h5⟩
    refine ⟨?_, ?_, ?_, ?_, ?_⟩
    · by_contra hv
      rw [guard_list_eq_nil] at h1
      exact h1 (by
        rw [WindowPatch.has_violations]
        simp [List.isEmpty_iff, hv])
    · exact (filterMap_guard_eq_nil patch.token_relabels
        (fun r => r.token_id ∈ windowTokenIds tr w) _).mp h2
    · exact (filterMap_guard_eq_nil patch.token_relabels
        (fun r => r.new_speaker ∈ cfg.allowed_speakers) _).mp h3
    · exact Nat.le_of_not_lt ((guard_list_eq_nil _).mp h4)
    · exact le_of_not_lt ((guard_list_eq_nil _).mp h5)
  · rintro ⟨h1, h2, h3, h4, h5⟩
    refine ⟨⟨⟨⟨?_, ?_⟩, ?_⟩, ?_⟩, ?_⟩
    · rw [guard_list_eq_nil]
      rw [WindowPatch.has_violations]
      simp [List.isEmpty_iff, h1]
    · exact (filterMap_guard_eq_nil patch.token_relabels
        (fun r => r.token_id ∈ windowTokenIds tr w) _).mpr h2
    · exact (filterMap_guard_eq_nil patch.token_relabels
        (fun r => r.new_speaker ∈ cfg.allowed_speakers) _).mpr h3
    · exact (guard_list_eq_nil _).mpr (Nat.not_lt.mpr h4)
    · exact (guard_list_eq_nil _).mpr (not_lt.mpr h5)

/-- C7: `validate_patch` rejects a patch exactly when one of the five error
sources fires — self-reported violations, a relabel outside the window's
editable token ids, a disallowed new speaker, a relabel count above
`ceil(token_count * max_edit_budget_percent / 100)`, or a cost increase
(5·switches + 2·short-turns cost, relabels applied to the window's speaker
sequence) above `max_cost_increase`.  Consequently every accepted patch
stays within the edit budget and relabels only window tokens. -/
theorem validate_patch_spec (patch : WindowPatch) (tr : TokenizedTranscript)
    (w : Window) (cfg : ValidationConfig) :
    ((validate_patch patch tr w cfg).is_valid = false ↔
      (patch.violations ≠ [] ∨
       (∃ r ∈ patch.token_relabels, r.token_id ∉ windowTokenIds tr w) ∨
       (∃ r ∈ patch.token_relabels, r.new_speaker ∉ cfg.allowed_speakers) ∨
       patch.relabel_count > editBudget w cfg ∨
       compute_cost_after_patch tr w patch - compute_cost tr w >
         cfg.max_cost_increase)) ∧
    ((validate_patch patch tr w cfg).is_valid = true →
      patch.relabel_count ≤ editBudget w cfg ∧
      ∀ r ∈ patch.token_relabels, r.token_id ∈ windowTokenIds tr w) := by
  have hsplit : (validate_patch patch tr w cfg).is_valid =
      (validationErrors patch tr w cfg).isEmpty := by
    rw [validate_patch]
    cases h : (validationErrors patch tr w cfg).isEmpty
    · simp only [h, Bool.false_eq_true, if_false]
      rfl
    · simp only [h, if_true]
      rfl
  by_cases hnil : validationErrors patch tr w cfg = []
  · have hval : (validate_patch patch tr w cfg).is_valid = true := by
      rw [hsplit, List.isEmpty_iff]
      exact hnil
    obtain ⟨c1, c2, c3, c4, c5⟩ := (validationErrors_eq_nil patch tr w cfg).mp hnil
    constructor
    · rw [hval]
      simp only [Bool.true_eq_false, false_iff]
      push_neg
      exact ⟨c1, fun r hr => c2 r hr, fun r hr => c3 r hr, c4, c5⟩
    · intro _
      exact ⟨c4, c2⟩
  · have hval : (validate_patch patch tr w cfg).is_valid = false := by
      rw [hsplit]
      cases h : (validationErrors patch tr w cfg).isEmpty
      · rfl
      · rw [List.isEmpty_iff] at h
        exact absurd h hnil
    constructor
    · rw [hval]
      simp only [true_iff]
      by_contra hc
      push_neg at hc
      obtain ⟨d1, d2, d3, d4, d5⟩ := hc
      exact hnil ((validationErrors_eq_nil patch tr w cfg).mpr
        ⟨d1, d2, d3, d4, d5⟩)
    · intro hv
      rw [hval] at hv
      exact absurd hv (by decide)

/-- A small accepted patch for the C7 witness: one relabel of the second of
three tokens, inside a window holding all three, staying within the budget
(`ceil(3 * 50 / 100) = 2`) and with a cost increase of `0 - 10 = -10`. -/
def patchC7 : WindowPatch :=
  { window_id := "w_0"
    token_relabels := [{ token_id := "t1", new_speaker := 0,
                         reason := ReasonCode.DialoguePairing }]
    turn_edits := [], violations := []
    notes := { uncertain_tokens := [], summary := "" } }

/-- Transcript for the C7 witness: three tokens, the middle one speaker 1. -/
def trC7 : TokenizedTranscript :=
  { tokens := [mkTok "t0" 0 "a" 0 400 0 (9/10),
               mkTok "t1" 1 "b" 500 900 1 (9/10),
               mkTok "t2" 2 "c" 1000 1400 0 (9/10)]
    turns := [], speakers := [0, 1] }

/-- Window for the C7 witness, holding all three token indices. -/
def wC7 : Window :=
  { window_id := "w_0", start_ms := 0, end_ms := 45000
    token_indices := [0, 1, 2], anchorPrefixIndices := []
    anchorSuffixIndices := [], is_problem_zone := false, problem_types := [] }

/-- Validation config for the C7 witness (50% budget so one edit fits). -/
def cfgC7 : ValidationConfig :=
  { max_edit_budget_percent := 50, allowed_speakers := [0, 1, 2, 3]
    max_cost_increase := 10 }

set_option maxRecDepth 100000 in
/-- Witness for C7: the concrete patch is accepted, and the theorem's
acceptance consequences hold for it. -/
theorem validate_patch_spec_witness :
    (validate_patch patchC7 trC7 wC7 cfgC7).is_valid = true ∧
    (patchC7.relabel_count ≤ editBudget wC7 cfgC7 ∧
     ∀ r ∈ patchC7.token_relabels, r.token_id ∈ windowTokenIds trC7 wC7) :=
  ⟨by with_unfolding_all decide,
   (validate_patch_spec patchC7 trC7 wC7 cfgC7).2
     (by with_unfolding_all decide)⟩

set_option maxRecDepth 400000 in
/-- Witness for C9 at the scenario transcript and default configuration. -/
theorem build_windows_spec_witness :
    trC9.tokens ≠ [] ∧ 0 < defaultWindowConfig.stride_ms ∧
    ((build_windows trC9 defaultWindowConfig []).windows.map Window.start_ms =
      [0, 15000, 30000, 45000, 60000, 75000, 90000, 105000]) :=
  ⟨by with_unfolding_all decide, by with_unfolding_all decide,
    (build_windows_spec trC9 defaultWindowConfig []
      (by with_unfolding_all decide) (by with_unfolding_all decide)).2.2.1⟩

end Diatribe
